import Mathlib

/-!
Shallow embedding of the `electron-todo` delta-update system.

Two halves are modelled, following the repository's source:

* the build-time pipeline (`src/lib/delta-builder`): release history
  resolution, artifact caching, delta creation, installer packaging and
  manifest generation (`create-all-deltas.ts`, `utils.ts`,
  `delta-installer-builder/create-delta/index.ts`, and the
  `getPreviousReleases` release-index collaborator);
* the client-side updater (`src/lib/delta-updater`): the
  `update-available` decision, `doSmartDownload` with checksum
  verification and full-update fallback, the checksum helpers, the URL
  helpers (`newBaseUrl` / `newUrlFromBase`) and the HTTP `downloadFile`
  with redirect following.

External collaborators (HTTP, 7zip, hdiffz, NSIS, signing, the file
system) are represented by explicit environment records whose fields
summarise exactly the observations the source code makes of them
(existence checks, produced content hashes, thrown errors).  Effects the
code performs are recorded in explicit traces so that claims about
"which calls happen" are statements about trace contents.
-/

/-- JavaScript `String.prototype.endsWith`, modelled on the character
list of the string. -/
def strEndsWith (s suffix : String) : Bool :=
  suffix.data.isSuffixOf s.data

/-- JavaScript `String.prototype.includes`, modelled as a substring
search on the character list. -/
def strIncludes (s sub : String) : Bool :=
  (List.range (s.data.length + 1)).any fun i => sub.data.isPrefixOf (s.data.drop i)

/-- Node `path.join(a, b)` for the simple two-argument uses in this
repository (the sources always join a directory with a relative name). -/
def pathJoin (a b : String) : String :=
  a ++ "/" ++ b

/-- Node `path.basename`, used by `fileNameFromUrl` in
`delta-builder/utils.ts`: the part of the path after the last slash. -/
def basename (p : String) : String :=
  ⟨(p.data.reverse.takeWhile fun c => c ≠ '/').reverse⟩

namespace UrlUtils

/-!  Model of `src/lib/delta-updater/utils.ts` (`newBaseUrl`,
`newUrlFromBase`).  A WHATWG `URL` is represented in parsed form: an
origin (scheme plus authority), a pathname and a search/hash suffix;
`href` is their concatenation.  `newBaseUrl` mutates `pathname` exactly
as the source does; `newUrlFromBase fileName base` models
`new URL(fileName, base)` for the plain relative file names this
repository resolves (manifest and patch file names without slashes):
the relative reference replaces the last path segment of the base. -/

structure Url where
  origin : String
  pathname : String
  search : String
deriving Repr, DecidableEq

def Url.href (u : Url) : String :=
  u.origin ++ u.pathname ++ u.search

/-- `newBaseUrl` from `delta-updater/utils.ts`: append `'/'` to the
pathname when it does not already end with one. -/
def newBaseUrl (u : Url) : Url :=
  if strEndsWith u.pathname "/" then u else { u with pathname := u.pathname ++ "/" }

/-- Everything up to and including the last `'/'` of a pathname: the
directory part that WHATWG relative resolution keeps. -/
def dropLastSegment (p : String) : String :=
  ⟨(p.data.reverse.dropWhile fun c => c ≠ '/').reverse⟩

/-- `newUrlFromBase` from `delta-updater/utils.ts`
(`new URL(fileName, base)`) for a plain relative file name: the last
segment of the base pathname is replaced by the file name and the query
of the base is dropped. -/
def newUrlFromBase (fileName : String) (base : Url) : Url :=
  { base with pathname := dropLastSegment base.pathname ++ fileName, search := "" }

end UrlUtils

namespace DeltaBuilder

/-- A previous release as consumed by the build pipeline
(`create-all-deltas.ts`, interface `Release`): a semantic-version tag
and the URL of its published full-installer asset. -/
structure Release where
  url : String
  version : String
deriving Repr, DecidableEq

/-- A GitHub release object as read by the release-index collaborator
(`getPreviousReleases`): tag name plus the download URLs of its
assets. -/
structure GHAsset where
  browser_download_url : String
deriving Repr, DecidableEq

structure GHRelease where
  tag_name : String
  assets : List GHAsset
deriving Repr, DecidableEq

/-- The release-index collaborator (unnamed source file, symbol
`getPreviousReleases`): selects, from the releases returned by the
GitHub API, the asset URLs matching the platform/target extension,
dropping `untagged` assets, web/`-Setup` installers and `-delta.exe`
files, and keeps the first three results. -/
def getPreviousReleases (data : List GHRelease) (platform target : String) :
    List Release :=
  let ext := if platform = "win" then (if target = "nsis-web" then ".7z" else ".exe") else ".zip"
  let prevReleases := data.foldl
    (fun arr release =>
      arr ++ (((release.assets.map fun d => d.browser_download_url).filter
          fun d => !(strIncludes d "untagged")).filter
          fun d => strEndsWith d ext).filterMap
          fun url =>
            if !(strEndsWith url "-delta.exe") && !(strIncludes url "-Setup") then
              some { version := release.tag_name, url := url }
            else none)
    []
  prevReleases.take 3

/-- A release after `preparePreviousReleases` in `create-all-deltas.ts`:
the version is cleaned by `semver.clean` and the cache file name is the
basename of the asset URL. -/
structure PreparedRelease where
  url : String
  version : String
  fileName : String
deriving Repr, DecidableEq

/-- `preparePreviousReleases` from `create-all-deltas.ts`.  `semver.clean`
is an external collaborator, passed in as a function. -/
def preparePreviousReleases (semverClean : String → String) (rs : List Release) :
    List PreparedRelease :=
  rs.map fun r => { url := r.url, version := semverClean r.version, fileName := basename r.url }

/-- `createDelta` from `delta-installer-builder/create-delta/index.ts`:
it runs `spawnSync hdiffz` and returns `true` when the call did not
throw (the exit code is never inspected) and `null` when `spawnSync`
threw; the throw is caught inside `createDelta` itself.  The boolean
argument records whether the spawn threw for this invocation. -/
def createDelta (spawnThrows : Bool) : Option Bool :=
  if spawnThrows then none else some true

/-- A manifest entry as built by `create-all-deltas.ts`: the JS object
`{ path, sha256 }`; fields are `Option` because JavaScript object
spreads can leave either absent. -/
structure ManifestEntry where
  path : Option String
  sha256 : Option String
deriving Repr, DecidableEq

/-- The delta manifest (`delta-<platform>.json`): `productName`,
`latestVersion`, and the per-version entries in JS-object insertion
order with unique keys. -/
structure Manifest where
  productName : String
  latestVersion : String
  entries : List (String × ManifestEntry)
deriving Repr, DecidableEq

/-- JS object property write `obj[k] = v`: replace the value if the key
is present, otherwise append the key in insertion order. -/
def setEntry (es : List (String × ManifestEntry)) (k : String) (v : ManifestEntry) :
    List (String × ManifestEntry) :=
  if es.any fun p => p.1 = k then
    es.map fun p => if p.1 = k then (k, v) else p
  else
    es ++ [(k, v)]

/-- JS object property read `obj[k]` (an absent key reads as
`undefined`, which spreads as the empty object). -/
def getEntry (es : List (String × ManifestEntry)) (k : String) : ManifestEntry :=
  match es.find? fun p => p.1 = k with
  | some p => p.2
  | none => { path := none, sha256 := none }

/-- The keys of a JS object, in insertion order. -/
def keysOf (es : List (String × ManifestEntry)) : List String :=
  es.map fun p => p.1

end DeltaBuilder

namespace DeltaBuilder

/-- Observable build-time effects of `createAllDeltas`: artifact
downloads, 7zip extractions, `createDelta` invocations (with the value
the call returned, which the caller ignores), NSIS installer builds,
signing calls, delta moves and the final manifest write. -/
inductive BuildEffect where
  | download (url filePath : String)
  | extract (zipPath dir : String)
  | createDeltaCall (oldDir newDir patchOut : String) (result : Option Bool)
  | nsisBuild (installerOutputPath : String)
  | signCall (filePath : String)
  | moveFile (src dst : String)
  | writeManifest (path : String) (manifest : Manifest)
deriving Repr, DecidableEq

/-- The scalar arguments of `createAllDeltas` that the claims depend
on (logger, icon and sign callback carry no data relevant here). -/
structure BuildArgs where
  platform : String
  outDir : String
  cacheDir : String
  productName : String
  processName : String
  latestReleaseFilePath : String
  latestVersion : String
deriving Repr, DecidableEq

/-- Environment summarising the external collaborators of one
`createAllDeltas` run:

* `previousReleasesResult` — what the `getPreviousReleases` callback
  did (`.error` models a thrown exception);
* `semverClean` — the `semver.clean` collaborator;
* `exists0` — `fs.existsSync` at the cache-check points before this
  run's downloads/extractions;
* `hdiffzThrows` — whether `spawnSync hdiffz` threw for the patch
  output path;
* `hdiffzOutput` — content hash of the patch file present at a path in
  the delta cache after the delta loop (`none`: no file, so `fs.move`
  throws);
* `nsisOutput` — content hash of the installer the NSIS build left at
  a path in the output directory (`none`: no file, so the build-side
  `computeSHA256`'s `readFileSync` throws). -/
structure BuildEnv where
  previousReleasesResult : Except String (List Release)
  semverClean : String → String
  exists0 : String → Bool
  hdiffzThrows : String → Bool
  hdiffzOutput : String → Option String
  nsisOutput : String → Option String

def dataDirOf (args : BuildArgs) : String := pathJoin args.cacheDir "data"

def deltaDirOf (args : BuildArgs) : String := pathJoin args.cacheDir "deltas"

def outputDirOf (args : BuildArgs) : String :=
  pathJoin args.outDir (args.latestVersion ++ "-" ++ args.platform ++ "-deltas")

/-- `${productName}-${version}-to-${latestVersion}.delta`. -/
def deltaFileNameOf (args : BuildArgs) (version : String) : String :=
  args.productName ++ "-" ++ version ++ "-to-" ++ args.latestVersion ++ ".delta"

/-- `${productName}-${version}-to-${latestVersion}-delta.exe`. -/
def installerFileName (args : BuildArgs) (version : String) : String :=
  args.productName ++ "-" ++ version ++ "-to-" ++ args.latestVersion ++ "-delta.exe"

/-- Result of one `createAllDeltas` run: the effect trace, the return
value (`.error` models an uncaught exception, `.ok none` the `null`
sentinel, `.ok (some fs)` the returned file list), and a model of the
output directory contents (file name, content hash) excluding the
manifest JSON itself. -/
structure BuildOutcome where
  effects : List BuildEffect
  result : Except String (Option (List String))
  outFiles : List (String × String)
  manifest : Option Manifest

/-- The build-side `computeSHA256` (`delta-builder/utils.ts`): it reads
the file with `fs.readFileSync` — throwing if the file is absent — and
hashes it.  `disk` gives the content hash at a path. -/
def computeSHA256 (disk : String → Option String) (filePath : String) :
    Except String String :=
  match disk filePath with
  | some h => .ok h
  | none => .error filePath

/-- The release list after the `try/catch` around `getPreviousReleases`
in `create-all-deltas.ts` (lines 67-75): a thrown exception is caught
and leaves the list empty. -/
def releasesOf (env : BuildEnv) : List Release :=
  match env.previousReleasesResult with
  | .ok l => l
  | .error _ => []

/-- The prepared previous releases actually processed: the fetched list
truncated to its first 10 elements (line 83) and prepared. -/
def preparedOf (env : BuildEnv) : List PreparedRelease :=
  preparePreviousReleases env.semverClean ((releasesOf env).take 10)

/-- The download loop (lines 99-103): one `downloadFileIfNotExists` per
release; the download is skipped when the file is already cached. -/
def dlEffectsOf (args : BuildArgs) (env : BuildEnv) (prs : List PreparedRelease) :
    List BuildEffect :=
  prs.filterMap fun r =>
    let fp := pathJoin (dataDirOf args) r.fileName
    if env.exists0 fp then none else some (BuildEffect.download r.url fp)

/-- The path whose existence gates re-extraction (lines 109-116):
`<dataDir>/<version>/<processName>.exe` (`.app` on mac). -/
def exePathOf (args : BuildArgs) (version : String) : String :=
  pathJoin (pathJoin (dataDirOf args) version)
    (args.processName ++ (if args.platform = "mac" then ".app" else ".exe"))

/-- The extraction loop over previous releases (lines 106-121):
`extract7zip` is skipped when the expected executable/bundle is already
present in the per-version directory. -/
def exEffectsOf (args : BuildArgs) (env : BuildEnv) (prs : List PreparedRelease) :
    List BuildEffect :=
  prs.filterMap fun r =>
    if env.exists0 (exePathOf args r.version) then none
    else some (BuildEffect.extract (pathJoin (dataDirOf args) r.fileName)
      (pathJoin (dataDirOf args) r.version))

def latestReleaseDirOf (args : BuildArgs) : String :=
  pathJoin (dataDirOf args) args.latestVersion

/-- `oldDir` of the delta loop (lines 138-141). -/
def oldDirOf (args : BuildArgs) (version : String) : String :=
  if args.platform = "win" then pathJoin (dataDirOf args) version
  else pathJoin (pathJoin (dataDirOf args) version) (args.productName ++ ".app")

/-- `newDir` of the delta loop (lines 142-145). -/
def newDirOf (args : BuildArgs) : String :=
  if args.platform = "win" then latestReleaseDirOf args
  else pathJoin (latestReleaseDirOf args) (args.productName ++ ".app")

/-- The delta loop (lines 133-149): one `createDelta` invocation per
previous release.  The returned value is recorded in the effect and
used nowhere else, exactly like the source, which discards it. -/
def deltaEffectsOf (args : BuildArgs) (env : BuildEnv) (prs : List PreparedRelease) :
    List BuildEffect :=
  prs.map fun r =>
    let dpath := pathJoin (deltaDirOf args) (deltaFileNameOf args r.version)
    BuildEffect.createDeltaCall (oldDirOf args r.version) (newDirOf args) dpath
      (createDelta (env.hdiffzThrows dpath))

/-- All effects up to and including the delta loop: downloads, cached
extractions, the unconditional extraction of the latest release
(line 125), and the delta-tool invocations. -/
def baseEffectsOf (args : BuildArgs) (env : BuildEnv) (prs : List PreparedRelease) :
    List BuildEffect :=
  dlEffectsOf args env prs ++ exEffectsOf args env prs ++
    [BuildEffect.extract args.latestReleaseFilePath (latestReleaseDirOf args)] ++
    deltaEffectsOf args env prs

/-- The Windows installer loop's effect on `deltaJSON` (lines 158-176):
`deltaJSON[version] = { path: installerFileName }` for every previous
release, built from the empty object. -/
def winInitEntries (args : BuildArgs) (prs : List PreparedRelease) :
    List (String × ManifestEntry) :=
  prs.foldl
    (fun es r =>
      setEntry es r.version
        { path := some (installerFileName args r.version), sha256 := none })
    []

/-- The Windows installer loop's subprocess effects (lines 158-176):
one NSIS build and one signing call per previous release. -/
def nsisEffectsOf (args : BuildArgs) (prs : List PreparedRelease) :
    List BuildEffect :=
  prs.flatMap fun r =>
    let ipath := pathJoin (outputDirOf args) (installerFileName args r.version)
    [BuildEffect.nsisBuild ipath, BuildEffect.signCall ipath]

/-- The Windows output-directory contents after the installer loop:
the installers NSIS actually produced, with their content hashes. -/
def outFilesWin (args : BuildArgs) (env : BuildEnv) (prs : List PreparedRelease) :
    List (String × String) :=
  prs.filterMap fun r =>
    (env.nsisOutput (pathJoin (outputDirOf args) (installerFileName args r.version))).map
      fun h => (installerFileName args r.version, h)

def manifestPathOf (args : BuildArgs) : String :=
  pathJoin (outputDirOf args) ("delta-" ++ args.platform ++ ".json")

/-- The Windows checksum loop of `create-all-deltas.ts` (lines
179-186): for each previous release, recompute the sha256 of the
installer in the output directory and merge it into the entry via
`deltaJSON[version] = { ...deltaJSON[version], sha256 }`.  A missing
installer makes `readFileSync` throw, which propagates. -/
def checksumLoopWin (args : BuildArgs) (nsisOut : String → Option String) :
    List PreparedRelease → List (String × ManifestEntry) →
    Except String (List (String × ManifestEntry))
  | [], es => .ok es
  | r :: rest, es =>
    match computeSHA256 nsisOut
        (pathJoin (outputDirOf args) (installerFileName args r.version)) with
    | .ok sha =>
      checksumLoopWin args nsisOut rest
        (setEntry es r.version { getEntry es r.version with sha256 := some sha })
    | .error e => .error e

/-- The macOS move loop of `create-all-deltas.ts` (lines 197-207):
move each delta from the delta cache into the output directory and
record `deltaJSON[version] = { path }`.  `fs.move` throws when the
source is absent (including when the same source was already moved by
an earlier iteration); the throw propagates and stops the loop.
Returns the move effects, the output-directory contents produced, and
the entries or the error. -/
def macMoveLoop (args : BuildArgs) (hdiffzOut : String → Option String) :
    List PreparedRelease → List String → List (String × ManifestEntry) →
    List BuildEffect × List (String × String) ×
      Except String (List (String × ManifestEntry))
  | [], _, es => ([], [], .ok es)
  | r :: rest, moved, es =>
    let dname := deltaFileNameOf args r.version
    let src := pathJoin (deltaDirOf args) dname
    let dst := pathJoin (outputDirOf args) dname
    if src ∈ moved then ([], [], .error dname)
    else
      match hdiffzOut src with
      | none => ([], [], .error dname)
      | some h =>
        let res := macMoveLoop args hdiffzOut rest (src :: moved)
          (setEntry es r.version { path := some dname, sha256 := none })
        (BuildEffect.moveFile src dst :: res.1, (dname, h) :: res.2.1, res.2.2)

/-- The macOS checksum loop of `create-all-deltas.ts` (lines 209-217):
recompute the sha256 of each moved delta in the output directory
(`outs` holds the output-directory contents) and merge it into the
entry.  A missing file makes `readFileSync` throw. -/
def checksumLoopMac (args : BuildArgs) (outs : List (String × String)) :
    List PreparedRelease → List (String × ManifestEntry) →
    Except String (List (String × ManifestEntry))
  | [], es => .ok es
  | r :: rest, es =>
    match outs.lookup (deltaFileNameOf args r.version) with
    | some sha =>
      checksumLoopMac args outs rest
        (setEntry es r.version { getEntry es r.version with sha256 := some sha })
    | none => .error (deltaFileNameOf args r.version)

/-- `createAllDeltas` from `create-all-deltas.ts`, as one pure function
from its arguments and collaborator environment to its effect trace,
return value and output-directory contents.  The sequencing follows the
source: fetch previous releases (a throw is caught and leaves the list
empty); return `null` when the list is empty; truncate to 10; prepare;
download installers that are not cached; extract installers whose
expected executable/bundle is not already extracted; extract the latest
release unconditionally; run `createDelta` for every pair, ignoring its
result; then the platform branch builds entries, computes checksums and
writes the manifest. -/
def createAllDeltas (args : BuildArgs) (env : BuildEnv) : BuildOutcome :=
  if (releasesOf env).isEmpty then
    { effects := [], result := .ok none, outFiles := [], manifest := none }
  else
    let prs := preparedOf env
    let base := baseEffectsOf args env prs
    if args.platform = "win" then
      match checksumLoopWin args env.nsisOutput prs (winInitEntries args prs) with
      | .ok entries2 =>
        let manifest : Manifest :=
          { productName := args.productName, latestVersion := args.latestVersion,
            entries := entries2 }
        { effects := base ++ nsisEffectsOf args prs ++
            [BuildEffect.writeManifest (manifestPathOf args) manifest],
          result := .ok (some
            (((outFilesWin args env prs).map fun p => pathJoin (outputDirOf args) p.1) ++
              [manifestPathOf args])),
          outFiles := outFilesWin args env prs,
          manifest := some manifest }
      | .error e =>
        { effects := base ++ nsisEffectsOf args prs, result := .error e,
          outFiles := outFilesWin args env prs, manifest := none }
    else
      match macMoveLoop args env.hdiffzOutput prs [] [] with
      | (mvEffects, outs, .ok entries1) =>
        match checksumLoopMac args outs prs entries1 with
        | .ok entries2 =>
          let manifest : Manifest :=
            { productName := args.productName, latestVersion := args.latestVersion,
              entries := entries2 }
          { effects := base ++ mvEffects ++
              [BuildEffect.writeManifest (manifestPathOf args) manifest],
            result := .ok (some
              ((outs.map fun p => pathJoin (outputDirOf args) p.1) ++
                [manifestPathOf args])),
            outFiles := outs,
            manifest := some manifest }
        | .error e =>
          { effects := base ++ mvEffects, result := .error e, outFiles := outs,
            manifest := none }
      | (mvEffects, outs, .error e) =>
        { effects := base ++ mvEffects, result := .error e, outFiles := outs,
          manifest := none }

/-- The manifest written by a run, if any (the `manifest` field is set
exactly when the source's `fs.writeFileSync` of the manifest JSON
runs, together with the `writeManifest` effect). -/
def manifestOf (o : BuildOutcome) : Option Manifest :=
  o.manifest

def isDownload : BuildEffect → Bool
  | .download _ _ => true
  | _ => false

def isExtract : BuildEffect → Bool
  | .extract _ _ => true
  | _ => false

def isCreateDeltaCall : BuildEffect → Bool
  | .createDeltaCall _ _ _ _ => true
  | _ => false

end DeltaBuilder

namespace DeltaUpdater

open DeltaBuilder (Manifest ManifestEntry)

/-- The client-side `computeSHA256` (`delta-updater/index.js` lines
30-39): returns `null` when the file does not exist, otherwise the hash
of its contents.  `fs` maps a path to the file contents, `hash` is the
SHA-256 collaborator. -/
def computeSHA256 (hash : String → String) (fs : String → Option String)
    (filePath : String) : Option String :=
  match fs filePath with
  | none => none
  | some content => some (hash content)

/-- `isSHACorrect` (`delta-updater/index.js` lines 41-48): strict
equality between the computed hash (possibly `null`) and the recorded
checksum string; the surrounding `try/catch` makes it total. -/
def isSHACorrect (hash : String → String) (fs : String → Option String)
    (filePath correctSHA : String) : Bool :=
  decide (computeSHA256 hash fs filePath = some correctSHA)

/-- The persisted update-attempt record (`update-details.json`), as
written by `writeAutoUpdateDetails`. -/
structure UpdateAttemptRecord where
  isDelta : Bool
  attemptedVersion : String
  appVersion : String
  timestamp : Nat
deriving Repr, DecidableEq

/-- The two continuations of the `update-available` handler: request a
full update from the native updater, or enter `doSmartDownload`. -/
inductive UpdateDecision where
  | fullDownloadUpdate
  | smartDownload
deriving Repr, DecidableEq

/-- The decision core of the `update-available` listener
(`delta-updater/index.js` lines 241-259): when a persisted attempt
record exists and its `appVersion` equals the running version, call
`autoUpdater.downloadUpdate()` and return; otherwise call
`doSmartDownload`.  `updateDetails` is the result of
`getAutoUpdateDetails` (`none` when the file was missing or
unreadable). -/
def updateAvailableHandler (updateDetails : Option UpdateAttemptRecord)
    (appVersion : String) : UpdateDecision :=
  match updateDetails with
  | some d =>
    if d.appVersion = appVersion then UpdateDecision.fullDownloadUpdate
    else UpdateDecision.smartDownload
  | none => UpdateDecision.smartDownload

/-- `deltaJSON[appVersion]`: look the running version up among the
per-version entries of the fetched manifest. -/
def lookupEntry (m : Manifest) (v : String) : Option ManifestEntry :=
  (m.entries.find? fun p => p.1 = v).map fun p => p.2

/-- Observable effects of one `doSmartDownload` cycle. -/
inductive ClientEffect where
  | fetchManifest (url : UrlUtils.Url)
  | downloadHelpers
  | downloadDelta (url : UrlUtils.Url) (filePath : String)
  | fullUpdateRequest
  | emitUpdateDownloaded (deltaPath version : String)
  | removeFile (path : String)
deriving Repr, DecidableEq

/-- Environment of one `doSmartDownload` cycle
(`delta-updater/index.js` lines 411-519):

* `channel` — `getChannel()` (the code returns early when falsy);
* `deltaJSON` — the manifest after the fetch `try/catch` (`none` for a
  network error, a non-200 status or a JSON parse error);
* `helperDownloadOk` — on macOS, whether downloading and `chmod`-ing
  `mac-updater` and `hpatchz` succeeded;
* `fs0` — file contents by path before the delta download (used by the
  `existsSync`/`isSHACorrect` cache check);
* `downloadRejects` — whether `downloadFile(deltaURL, deltaPath)`
  rejected;
* `fs1` — file contents after the download completed (used by the
  post-download verification);
* `hash` — the SHA-256 collaborator. -/
structure ClientEnv where
  appVersion : String
  channel : Option String
  hostURL : UrlUtils.Url
  platformDarwin : Bool
  deltaJSON : Option Manifest
  helperDownloadOk : Bool
  deltaHolderPath : String
  fs0 : String → Option String
  downloadRejects : Bool
  fs1 : String → Option String
  hash : String → String

/-- The local path the delta is downloaded to:
`path.join(this.deltaHolderPath, deltaDetails.path)` (line 483). -/
def deltaPathOf (env : ClientEnv) (d : ManifestEntry) : String :=
  pathJoin env.deltaHolderPath (d.path.getD "undefined")

/-- `doSmartDownload` (`delta-updater/index.js` lines 411-519) as the
effect trace of one cycle, for an `update-available` event carrying
`version`.  Every failure (missing manifest, missing entry, missing
`sha256`, helper failure, download rejection, checksum mismatch) ends
the cycle with a single `autoUpdater.downloadUpdate()` call; a cached
or verified delta ends it by emitting `update-downloaded`.  The code
never deletes the downloaded file (no `removeFile` effect is ever
produced). -/
def doSmartDownload (env : ClientEnv) (version : String) : List ClientEffect :=
  match env.channel with
  | none => []
  | some _ =>
    let jsonFileName := if env.platformDarwin then "delta-mac.json" else "delta-win.json"
    let deltaJSONUrl := UrlUtils.newUrlFromBase jsonFileName env.hostURL
    let fetchEff := [ClientEffect.fetchManifest deltaJSONUrl]
    match env.deltaJSON with
    | none => fetchEff ++ [ClientEffect.fullUpdateRequest]
    | some deltaJSON =>
      match lookupEntry deltaJSON env.appVersion with
      | none => fetchEff ++ [ClientEffect.fullUpdateRequest]
      | some deltaDetails =>
        let deltaURL :=
          UrlUtils.newUrlFromBase (deltaDetails.path.getD "undefined") env.hostURL
        match deltaDetails.sha256 with
        | none => fetchEff ++ [ClientEffect.fullUpdateRequest]
        | some shaVal =>
          let helperEffs :=
            if env.platformDarwin then [ClientEffect.downloadHelpers] else []
          if env.platformDarwin && !env.helperDownloadOk then
            fetchEff ++ helperEffs ++ [ClientEffect.fullUpdateRequest]
          else
            let deltaPath := deltaPathOf env deltaDetails
            if (env.fs0 deltaPath).isSome &&
                isSHACorrect env.hash env.fs0 deltaPath shaVal then
              fetchEff ++ helperEffs ++
                [ClientEffect.emitUpdateDownloaded deltaPath version]
            else
              let dlEff := [ClientEffect.downloadDelta deltaURL deltaPath]
              if env.downloadRejects then
                fetchEff ++ helperEffs ++ dlEff ++ [ClientEffect.fullUpdateRequest]
              else if isSHACorrect env.hash env.fs1 deltaPath shaVal then
                fetchEff ++ helperEffs ++ dlEff ++
                  [ClientEffect.emitUpdateDownloaded deltaPath version]
              else
                fetchEff ++ helperEffs ++ dlEff ++ [ClientEffect.fullUpdateRequest]

def isFullUpdateRequest : ClientEffect → Bool
  | ClientEffect.fullUpdateRequest => true
  | _ => false

def isDownloadDelta : ClientEffect → Bool
  | ClientEffect.downloadDelta _ _ => true
  | _ => false

def isEmitUpdateDownloaded : ClientEffect → Bool
  | ClientEffect.emitUpdateDownloaded _ _ => true
  | _ => false

def isRemoveFile : ClientEffect → Bool
  | ClientEffect.removeFile _ => true
  | _ => false

/-- An HTTP response as observed by `download.ts`: status code,
optional `Location` header and body. -/
structure HttpResponse where
  statusCode : Nat
  location : Option String
  body : String
deriving Repr, DecidableEq

/-- The settlement of the promise returned by `downloadFile`:
`resolved filePath content` (the file at `filePath` holds `content`),
`rejected` with the offending status code, or `pending` — the promise
never settles (the source chains a redirect with `.then` and no
`.catch`, so an inner rejection leaves the outer promise pending; a
redirect cycle also never settles, modelled by running out of fuel). -/
inductive DlResult where
  | resolved (filePath content : String)
  | rejected (statusCode : Nat)
  | pending
deriving Repr, DecidableEq

/-- `downloadFile` from `delta-updater/download.ts`: status 200 streams
the body into `filePath` and resolves; 301/302 re-issues the request
against the `Location` header with the same `filePath`; any other
status rejects with `Network error <status>`.  `net` maps a URL to its
response; `fuel` bounds the redirect chain. -/
def downloadFile (net : String → HttpResponse) :
    Nat → String → String → DlResult
  | 0, _, _ => DlResult.pending
  | fuel + 1, url, filePath =>
    let r := net url
    if r.statusCode = 200 then DlResult.resolved filePath r.body
    else if r.statusCode = 302 ∨ r.statusCode = 301 then
      match downloadFile net fuel (r.location.getD "undefined") filePath with
      | DlResult.resolved p c => DlResult.resolved p c
      | _ => DlResult.pending
    else DlResult.rejected r.statusCode

end DeltaUpdater

namespace DeltaBuilder

/-- The release list of the spec's HistoryResolver scenario:
`[{1.0.0, .exe}, {1.1.0, .exe}, {1.1.0, -Setup.exe}, {1.2.0, -delta.exe}]`. -/
def scenarioReleases : List GHRelease :=
  [ { tag_name := "1.0.0",
      assets := [{ browser_download_url := "https://host/App-1.0.0.exe" }] },
    { tag_name := "1.1.0",
      assets := [{ browser_download_url := "https://host/App-1.1.0.exe" },
                 { browser_download_url := "https://host/App-1.1.0-Setup.exe" }] },
    { tag_name := "1.2.0",
      assets := [{ browser_download_url := "https://host/App-1.2.0-delta.exe" }] } ]

/-- A concrete Windows build configuration used by the concrete runs
below. -/
def sampleArgs : BuildArgs :=
  { platform := "win", outDir := "/out", cacheDir := "/cache",
    productName := "App", processName := "App",
    latestReleaseFilePath := "/latest/App-2.0.0.exe", latestVersion := "2.0.0" }

def sampleRelease : Release :=
  { url := "https://host/App-1.0.0.exe", version := "1.0.0" }

/-- One previous release; `spawnSync hdiffz` throws for every pair, so
every `createDelta` invocation fails; NSIS still leaves an installer. -/
def envDeltaFail : BuildEnv :=
  { previousReleasesResult := .ok [sampleRelease],
    semverClean := fun v => v,
    exists0 := fun _ => false,
    hdiffzThrows := fun _ => true,
    hdiffzOutput := fun _ => none,
    nsisOutput := fun _ => some "deadbeef" }

/-- A fully warmed cache: every installer and every extracted
executable is already present, and all tools succeed. -/
def envWarm : BuildEnv :=
  { previousReleasesResult := .ok [sampleRelease],
    semverClean := fun v => v,
    exists0 := fun _ => true,
    hdiffzThrows := fun _ => false,
    hdiffzOutput := fun _ => some "dhash",
    nsisOutput := fun _ => some "deadbeef" }

/-- The release index is unreachable: `getPreviousReleases` throws. -/
def envIndexDown : BuildEnv :=
  { previousReleasesResult := .error "HTTP 503",
    semverClean := fun v => v,
    exists0 := fun _ => false,
    hdiffzThrows := fun _ => false,
    hdiffzOutput := fun _ => none,
    nsisOutput := fun _ => none }

end DeltaBuilder

namespace DeltaUpdater

/-- A concrete fetched manifest with one entry for version `1.0.0`. -/
def sampleManifest : DeltaBuilder.Manifest :=
  { productName := "App", latestVersion := "2.0.0",
    entries := [("1.0.0",
      { path := some "App-1.0.0-to-2.0.0-delta.exe", sha256 := some "goodsha" })] }

def sampleHostURL : UrlUtils.Url :=
  { origin := "https://host", pathname := "/feed/", search := "" }

/-- A cycle in which the delta downloads but its content hashes to
`"corrupt"`, not the recorded `"goodsha"`. -/
def envMismatch : ClientEnv :=
  { appVersion := "1.0.0", channel := some "latest", hostURL := sampleHostURL,
    platformDarwin := false, deltaJSON := some sampleManifest,
    helperDownloadOk := true, deltaHolderPath := "/deltas",
    fs0 := fun _ => none,
    downloadRejects := false,
    fs1 := fun p =>
      if p = "/deltas/App-1.0.0-to-2.0.0-delta.exe" then some "corrupt" else none,
    hash := fun s => s }

/-- A cycle in which the delta file is missing from disk both before
and after the download (deleted externally). -/
def envFileMissing : ClientEnv :=
  { appVersion := "1.0.0", channel := some "latest", hostURL := sampleHostURL,
    platformDarwin := false, deltaJSON := some sampleManifest,
    helperDownloadOk := true, deltaHolderPath := "/deltas",
    fs0 := fun _ => none,
    downloadRejects := false,
    fs1 := fun _ => none,
    hash := fun s => s }

/-- A small network: one URL answers 302 towards a second URL that
answers 200; everything else is 404. -/
def redirectNet : String → HttpResponse := fun u =>
  if u = "https://a/file" then
    { statusCode := 302, location := some "https://b/file", body := "" }
  else if u = "https://b/file" then
    { statusCode := 200, location := none, body := "payload" }
  else { statusCode := 404, location := none, body := "" }

end DeltaUpdater

namespace UrlUtils

theorem strEndsWith_append_slash (s : String) : strEndsWith (s ++ "/") "/" = true := by
  simp [strEndsWith, String.data_append, List.isSuffixOf_iff_suffix]

theorem newBaseUrl_of_endsWith (v : Url) (h : strEndsWith v.pathname "/" = true) :
    newBaseUrl v = v := by
  simp [newBaseUrl, h]

theorem endsWith_newBaseUrl (u : Url) :
    strEndsWith (newBaseUrl u).pathname "/" = true := by
  by_cases h : strEndsWith u.pathname "/" = true
  · simp [newBaseUrl, h]
  · simp [newBaseUrl, h, strEndsWith_append_slash]

theorem dropLastSegment_of_endsWith (q : String) (h : strEndsWith q "/" = true) :
    dropLastSegment q = q := by
  have h2 : ∃ t, q.data = t ++ ['/'] := by
    simp [strEndsWith, List.isSuffixOf_iff_suffix, List.suffix_iff_eq_append] at h
    exact ⟨_, h.symm⟩
  obtain ⟨t, ht⟩ := h2
  apply String.ext
  simp [dropLastSegment, ht, List.dropWhile_cons]

/-- C10: for every URL, `newBaseUrl` yields a pathname that ends with
`'/'`; `newBaseUrl` is idempotent; and resolving a relative file name
against the result with `newUrlFromBase` appends the name to the base
pathname instead of replacing its final segment. -/
theorem newBaseUrl_slash_idempotent_append (u : Url) (n : String) :
    strEndsWith (newBaseUrl u).pathname "/" = true ∧
    newBaseUrl (newBaseUrl u) = newBaseUrl u ∧
    (newUrlFromBase n (newBaseUrl u)).pathname = (newBaseUrl u).pathname ++ n := by
  refine ⟨endsWith_newBaseUrl u, newBaseUrl_of_endsWith _ (endsWith_newBaseUrl u), ?_⟩
  show dropLastSegment (newBaseUrl u).pathname ++ n = (newBaseUrl u).pathname ++ n
  rw [dropLastSegment_of_endsWith _ (endsWith_newBaseUrl u)]

end UrlUtils

namespace DeltaBuilder

/-- C7 counterexample: on the spec's scenario input, `getPreviousReleases`
returns the versions `1.0.0` and `1.1.0` — two entries, not the single
`1.1.0` entry the claim states. -/
theorem getPreviousReleases_scenario_two_entries :
    (getPreviousReleases scenarioReleases "win" "nsis").map Release.version =
      ["1.0.0", "1.1.0"] ∧
    (getPreviousReleases scenarioReleases "win" "nsis").map Release.version ≠
      ["1.1.0"] := by
  constructor
  · rfl
  · decide

/-- C7 amended: on the scenario input with platform `win` and target
`nsis`, the resolver returns exactly two entries — `1.0.0` with its
plain `.exe` asset and `1.1.0` with its plain `.exe` asset — excluding
the `-Setup` and `-delta` variants. -/
theorem getPreviousReleases_scenario_result :
    getPreviousReleases scenarioReleases "win" "nsis" =
      [ { url := "https://host/App-1.0.0.exe", version := "1.0.0" },
        { url := "https://host/App-1.1.0.exe", version := "1.1.0" } ] := by
  rfl

end DeltaBuilder

namespace DeltaUpdater

/-- C2: on an `update-available` event, if a persisted attempt record
exists whose `appVersion` equals the running version, the handler
requests a full download from the native updater and never enters the
delta path (`doSmartDownload`), regardless of any manifest contents
(the decision is taken before any manifest is consulted). -/
theorem updateAvailable_matching_attempt_skips_delta
    (d : UpdateAttemptRecord) (appVersion : String) (h : d.appVersion = appVersion) :
    updateAvailableHandler (some d) appVersion = UpdateDecision.fullDownloadUpdate ∧
    updateAvailableHandler (some d) appVersion ≠ UpdateDecision.smartDownload := by
  simp [updateAvailableHandler, h]

theorem updateAvailable_matching_attempt_skips_delta_witness :
    (({ isDelta := true, attemptedVersion := "2.0.0", appVersion := "1.0.0",
        timestamp := 0 } : UpdateAttemptRecord).appVersion = "1.0.0") ∧
    (updateAvailableHandler
        (some { isDelta := true, attemptedVersion := "2.0.0", appVersion := "1.0.0",
                timestamp := 0 }) "1.0.0" = UpdateDecision.fullDownloadUpdate ∧
      updateAvailableHandler
        (some { isDelta := true, attemptedVersion := "2.0.0", appVersion := "1.0.0",
                timestamp := 0 }) "1.0.0" ≠ UpdateDecision.smartDownload) :=
  ⟨rfl, updateAvailable_matching_attempt_skips_delta _ _ rfl⟩

end DeltaUpdater

namespace DeltaBuilder

/-- C5: when `getPreviousReleases` throws or returns no releases,
`createAllDeltas` returns the `null` sentinel — which is distinct from
an empty file list — performs no effects (in particular writes no
manifest), and propagates no exception. -/
theorem createAllDeltas_index_failure_returns_null
    (args : BuildArgs) (env : BuildEnv) (e : String)
    (h : env.previousReleasesResult = Except.error e ∨
         env.previousReleasesResult = Except.ok []) :
    (createAllDeltas args env).result = Except.ok none ∧
    (createAllDeltas args env).result ≠ Except.ok (some []) ∧
    (∀ msg, (createAllDeltas args env).result ≠ Except.error msg) ∧
    (createAllDeltas args env).manifest = none ∧
    (createAllDeltas args env).effects = [] := by
  have hrel : releasesOf env = [] := by
    rcases h with h | h <;> simp [releasesOf, h]
  have hempty : (releasesOf env).isEmpty = true := by simp [hrel]
  simp [createAllDeltas, hempty]

theorem createAllDeltas_index_failure_returns_null_witness :
    (envIndexDown.previousReleasesResult = Except.error "HTTP 503" ∨
      envIndexDown.previousReleasesResult = Except.ok []) ∧
    ((createAllDeltas sampleArgs envIndexDown).result = Except.ok none ∧
      (createAllDeltas sampleArgs envIndexDown).result ≠ Except.ok (some []) ∧
      (∀ msg, (createAllDeltas sampleArgs envIndexDown).result ≠ Except.error msg) ∧
      (createAllDeltas sampleArgs envIndexDown).manifest = none ∧
      (createAllDeltas sampleArgs envIndexDown).effects = []) :=
  ⟨Or.inl rfl,
    createAllDeltas_index_failure_returns_null sampleArgs envIndexDown "HTTP 503"
      (Or.inl rfl)⟩

end DeltaBuilder

namespace DeltaUpdater

/-- C8: a download request answered 301 or 302 is transparently
re-issued against the `Location` target, and resolves with the file
fetched from that target written to the originally requested file
path; a request answered with any status other than 200, 301 and 302
rejects with an error. -/
theorem downloadFile_redirect_follows_other_status_rejects
    (net : String → HttpResponse) (fuel : Nat) (url filePath : String) :
    (∀ loc c, ((net url).statusCode = 301 ∨ (net url).statusCode = 302) →
      (net url).location = some loc →
      downloadFile net fuel loc filePath = DlResult.resolved filePath c →
      downloadFile net (fuel + 1) url filePath = DlResult.resolved filePath c) ∧
    ((net url).statusCode ≠ 200 → (net url).statusCode ≠ 301 →
      (net url).statusCode ≠ 302 →
      downloadFile net (fuel + 1) url filePath =
        DlResult.rejected (net url).statusCode) := by
  constructor
  · intro loc c hst hloc hres
    rcases hst with h | h
    · simp [downloadFile, h, hloc, hres]
    · simp [downloadFile, h, hloc, hres]
  · intro h200 h301 h302
    simp [downloadFile, h200, h301, h302]

theorem downloadFile_redirect_follows_other_status_rejects_witness :
    ((redirectNet "https://a/file").statusCode = 301 ∨
      (redirectNet "https://a/file").statusCode = 302) ∧
    (redirectNet "https://a/file").location = some "https://b/file" ∧
    downloadFile redirectNet 1 "https://b/file" "/tmp/out" =
      DlResult.resolved "/tmp/out" "payload" ∧
    downloadFile redirectNet 2 "https://a/file" "/tmp/out" =
      DlResult.resolved "/tmp/out" "payload" ∧
    (redirectNet "https://c/none").statusCode ≠ 200 ∧
    downloadFile redirectNet 1 "https://c/none" "/tmp/out" =
      DlResult.rejected 404 := by
  have hinner : downloadFile redirectNet 1 "https://b/file" "/tmp/out" =
      DlResult.resolved "/tmp/out" "payload" := by decide
  refine ⟨Or.inr rfl, rfl, hinner, ?_, by decide, ?_⟩
  · exact (downloadFile_redirect_follows_other_status_rejects redirectNet 1
      "https://a/file" "/tmp/out").1 "https://b/file" "payload" (Or.inr rfl) rfl hinner
  · exact (downloadFile_redirect_follows_other_status_rejects redirectNet 0
      "https://c/none" "/tmp/out").2 (by decide) (by decide) (by decide)

/-- Helper: the exact effect trace of a `doSmartDownload` cycle that
reaches the download and fails post-download verification. -/
theorem doSmartDownload_download_mismatch_trace
    (env : ClientEnv) (version ch : String) (m : DeltaBuilder.Manifest)
    (d : DeltaBuilder.ManifestEntry) (shaVal : String)
    (hch : env.channel = some ch)
    (hjson : env.deltaJSON = some m)
    (hentry : lookupEntry m env.appVersion = some d)
    (hsha : d.sha256 = some shaVal)
    (hplat : env.platformDarwin = false ∨ env.helperDownloadOk = true)
    (hcache : ((env.fs0 (deltaPathOf env d)).isSome &&
        isSHACorrect env.hash env.fs0 (deltaPathOf env d) shaVal) = false)
    (hdl : env.downloadRejects = false)
    (hbad : isSHACorrect env.hash env.fs1 (deltaPathOf env d) shaVal = false) :
    doSmartDownload env version =
      [ClientEffect.fetchManifest (UrlUtils.newUrlFromBase
          (if env.platformDarwin then "delta-mac.json" else "delta-win.json")
          env.hostURL)] ++
        (if env.platformDarwin then [ClientEffect.downloadHelpers] else []) ++
        [ClientEffect.downloadDelta
            (UrlUtils.newUrlFromBase (d.path.getD "undefined") env.hostURL)
            (deltaPathOf env d),
          ClientEffect.fullUpdateRequest] := by
  cases hpd : env.platformDarwin with
  | false =>
    simp [doSmartDownload, hch, hjson, hentry, hsha, hpd, hcache, hdl, hbad]
  | true =>
    have hok : env.helperDownloadOk = true := by
      rcases hplat with h | h
      · rw [hpd] at h; cases h
      · exact h
    simp [doSmartDownload, hch, hjson, hentry, hsha, hpd, hok, hcache, hdl, hbad]

/-- C3: when the downloaded delta's recomputed SHA-256 differs from the
manifest's recorded checksum, the cycle issues exactly one full-update
request, performs exactly one delta download (no re-attempt), emits no
delta-ready signal, and never removes the corrupt file. -/
theorem doSmartDownload_checksum_mismatch_single_fallback
    (env : ClientEnv) (version ch : String) (m : DeltaBuilder.Manifest)
    (d : DeltaBuilder.ManifestEntry) (shaVal : String)
    (hch : env.channel = some ch)
    (hjson : env.deltaJSON = some m)
    (hentry : lookupEntry m env.appVersion = some d)
    (hsha : d.sha256 = some shaVal)
    (hplat : env.platformDarwin = false ∨ env.helperDownloadOk = true)
    (hcache : ((env.fs0 (deltaPathOf env d)).isSome &&
        isSHACorrect env.hash env.fs0 (deltaPathOf env d) shaVal) = false)
    (hdl : env.downloadRejects = false)
    (hbad : computeSHA256 env.hash env.fs1 (deltaPathOf env d) ≠ some shaVal) :
    (doSmartDownload env version).countP isFullUpdateRequest = 1 ∧
    (doSmartDownload env version).countP isDownloadDelta = 1 ∧
    (doSmartDownload env version).countP isEmitUpdateDownloaded = 0 ∧
    (doSmartDownload env version).countP isRemoveFile = 0 := by
  have hbad' : isSHACorrect env.hash env.fs1 (deltaPathOf env d) shaVal = false := by
    simp [isSHACorrect, hbad]
  rw [doSmartDownload_download_mismatch_trace env version ch m d shaVal hch hjson
    hentry hsha hplat hcache hdl hbad']
  cases hpd : env.platformDarwin <;>
    simp [hpd, List.countP_append, List.countP_cons, isFullUpdateRequest,
      isDownloadDelta, isEmitUpdateDownloaded, isRemoveFile]

theorem doSmartDownload_checksum_mismatch_single_fallback_witness :
    envMismatch.channel = some "latest" ∧
    envMismatch.deltaJSON = some sampleManifest ∧
    lookupEntry sampleManifest envMismatch.appVersion =
      some { path := some "App-1.0.0-to-2.0.0-delta.exe", sha256 := some "goodsha" } ∧
    computeSHA256 envMismatch.hash envMismatch.fs1
        (deltaPathOf envMismatch
          { path := some "App-1.0.0-to-2.0.0-delta.exe", sha256 := some "goodsha" }) ≠
      some "goodsha" ∧
    ((doSmartDownload envMismatch "2.0.0").countP isFullUpdateRequest = 1 ∧
      (doSmartDownload envMismatch "2.0.0").countP isDownloadDelta = 1 ∧
      (doSmartDownload envMismatch "2.0.0").countP isEmitUpdateDownloaded = 0 ∧
      (doSmartDownload envMismatch "2.0.0").countP isRemoveFile = 0) := by
  refine ⟨rfl, rfl, by decide, by decide, ?_⟩
  exact doSmartDownload_checksum_mismatch_single_fallback envMismatch "2.0.0" "latest"
    sampleManifest
    { path := some "App-1.0.0-to-2.0.0-delta.exe", sha256 := some "goodsha" }
    "goodsha" rfl rfl (by decide) rfl (Or.inl rfl) (by decide) rfl (by decide)

/-- C9: for a path with no file on disk, the client `computeSHA256`
returns `null` instead of throwing, `isSHACorrect` is `false` for every
expected checksum, and a `doSmartDownload` cycle whose delta file is
missing (before and after the download) degrades to the single
full-update fallback — it emits no delta-ready signal and, the model
being total, never raises out of the update cycle. -/
theorem computeSHA256_missing_file_fallback
    (hash : String → String) (fs : String → Option String) (p : String)
    (hmiss : fs p = none) :
    computeSHA256 hash fs p = none ∧
    (∀ sha : String, isSHACorrect hash fs p sha = false) ∧
    (∀ (env : ClientEnv) (version ch : String) (m : DeltaBuilder.Manifest)
        (d : DeltaBuilder.ManifestEntry) (shaVal : String),
      env.channel = some ch → env.deltaJSON = some m →
      lookupEntry m env.appVersion = some d → d.sha256 = some shaVal →
      (env.platformDarwin = false ∨ env.helperDownloadOk = true) →
      env.downloadRejects = false →
      env.fs0 = fs → env.fs1 = fs → deltaPathOf env d = p →
      (doSmartDownload env version).countP isFullUpdateRequest = 1 ∧
      (doSmartDownload env version).countP isEmitUpdateDownloaded = 0) := by
  refine ⟨by simp [computeSHA256, hmiss], ?_, ?_⟩
  · intro sha; simp [isSHACorrect, computeSHA256, hmiss]
  · intro env version ch m d shaVal hch hjson hentry hsha hplat hdl hfs0 hfs1 hdp
    have hcache : ((env.fs0 (deltaPathOf env d)).isSome &&
        isSHACorrect env.hash env.fs0 (deltaPathOf env d) shaVal) = false := by
      rw [hfs0, hdp, hmiss]
      simp
    have hbad : isSHACorrect env.hash env.fs1 (deltaPathOf env d) shaVal = false := by
      rw [hfs1, hdp]
      simp [isSHACorrect, computeSHA256, hmiss]
    rw [doSmartDownload_download_mismatch_trace env version ch m d shaVal hch hjson
      hentry hsha hplat hcache hdl hbad]
    cases hpd : env.platformDarwin <;>
      simp [hpd, List.countP_append, List.countP_cons, isFullUpdateRequest,
        isEmitUpdateDownloaded]

theorem computeSHA256_missing_file_fallback_witness :
    ((fun _ => none) : String → Option String) "/deltas/App-1.0.0-to-2.0.0-delta.exe" =
      none ∧
    computeSHA256 (fun s => s) (fun _ => none)
      "/deltas/App-1.0.0-to-2.0.0-delta.exe" = none ∧
    isSHACorrect (fun s => s) (fun _ => none)
      "/deltas/App-1.0.0-to-2.0.0-delta.exe" "goodsha" = false ∧
    ((doSmartDownload envFileMissing "2.0.0").countP isFullUpdateRequest = 1 ∧
      (doSmartDownload envFileMissing "2.0.0").countP isEmitUpdateDownloaded = 0) := by
  have main := computeSHA256_missing_file_fallback (fun s => s) (fun _ => none)
    "/deltas/App-1.0.0-to-2.0.0-delta.exe" rfl
  refine ⟨rfl, main.1, main.2.1 "goodsha", ?_⟩
  exact main.2.2 envFileMissing "2.0.0" "latest" sampleManifest
    { path := some "App-1.0.0-to-2.0.0-delta.exe", sha256 := some "goodsha" }
    "goodsha" rfl rfl (by decide) rfl (Or.inl rfl) rfl rfl rfl rfl

end DeltaUpdater

namespace DeltaBuilder

theorem mem_setEntry {es : List (String × ManifestEntry)} {k : String}
    {v : ManifestEntry} {q : String × ManifestEntry} (hq : q ∈ setEntry es k v) :
    q = (k, v) ∨ (q ∈ es ∧ q.1 ≠ k) := by
  unfold setEntry at hq
  split at hq
  case isTrue h =>
    rw [List.mem_map] at hq
    obtain ⟨p, hp, he⟩ := hq
    by_cases hpk : p.1 = k
    · left
      rw [if_pos hpk] at he
      exact he.symm
    · right
      rw [if_neg hpk] at he
      exact he ▸ ⟨hp, hpk⟩
  case isFalse h =>
    rw [List.mem_append] at hq
    rcases hq with hq | hq
    · right
      refine ⟨hq, fun hk => h ?_⟩
      rw [List.any_eq_true]
      exact ⟨q, hq, by simp [hk]⟩
    · left
      simpa using hq

theorem keysOf_setEntry (es : List (String × ManifestEntry)) (k : String)
    (v : ManifestEntry) :
    keysOf (setEntry es k v) =
      if k ∈ keysOf es then keysOf es else keysOf es ++ [k] := by
  unfold setEntry keysOf
  by_cases h : k ∈ es.map fun p => p.1
  · rw [if_pos h]
    have hany : (es.any fun p => decide (p.1 = k)) = true := by
      rw [List.any_eq_true]
      obtain ⟨p, hp, hpk⟩ := List.mem_map.mp h
      exact ⟨p, hp, by simp [hpk]⟩
    rw [if_pos hany, List.map_map]
    apply List.map_congr_left
    intro p hp
    by_cases hpk : p.1 = k
    · simp [hpk]
    · simp [hpk]
  · rw [if_neg h]
    have hany : ¬((es.any fun p => decide (p.1 = k)) = true) := by
      rw [List.any_eq_true]
      rintro ⟨p, hp, hpk⟩
      exact h (List.mem_map.mpr ⟨p, hp, by simpa using hpk⟩)
    rw [if_neg hany, List.map_append]
    simp

theorem mem_keysOf_setEntry_of_mem {es : List (String × ManifestEntry)}
    {x k : String} {v : ManifestEntry} (h : x ∈ keysOf es) :
    x ∈ keysOf (setEntry es k v) := by
  rw [keysOf_setEntry]
  split
  · exact h
  · exact List.mem_append_left _ h

theorem self_mem_keysOf_setEntry (es : List (String × ManifestEntry))
    (k : String) (v : ManifestEntry) : k ∈ keysOf (setEntry es k v) := by
  rw [keysOf_setEntry]
  split
  case isTrue h => exact h
  case isFalse h => exact List.mem_append_right _ (by simp)

theorem mem_keysOf_setEntry_elim {es : List (String × ManifestEntry)}
    {x k : String} {v : ManifestEntry} (h : x ∈ keysOf (setEntry es k v)) :
    x ∈ keysOf es ∨ x = k := by
  rw [keysOf_setEntry] at h
  split at h
  · exact Or.inl h
  · rcases List.mem_append.mp h with h | h
    · exact Or.inl h
    · simp at h
      exact Or.inr h

theorem length_setEntry (es : List (String × ManifestEntry)) (k : String)
    (v : ManifestEntry) : (setEntry es k v).length ≤ es.length + 1 := by
  have h1 : (setEntry es k v).length = (keysOf (setEntry es k v)).length :=
    (List.length_map _ _).symm
  rw [h1, keysOf_setEntry]
  split
  · simp [keysOf]
  · simp [keysOf]

theorem keysOf_setEntry_of_mem {es : List (String × ManifestEntry)}
    {k : String} (v : ManifestEntry) (h : k ∈ keysOf es) :
    keysOf (setEntry es k v) = keysOf es := by
  rw [keysOf_setEntry, if_pos h]

/-- When the key is present and every entry's `path` is as described by
`P`, the entry `getEntry` reads satisfies `P` for that key. -/
theorem getEntry_path {es : List (String × ManifestEntry)} {k : String}
    (P : String → Option String)
    (hmem : k ∈ keysOf es) (hall : ∀ q ∈ es, q.2.path = P q.1) :
    (getEntry es k).path = P k := by
  unfold getEntry
  obtain ⟨p, hp, hpk⟩ := List.mem_map.mp hmem
  have hsome : (es.find? fun q => decide (q.1 = k)).isSome := by
    rw [List.find?_isSome]
    exact ⟨p, hp, by simp [hpk]⟩
  obtain ⟨q, hq⟩ := Option.isSome_iff_exists.mp hsome
  rw [hq]
  have hqes : q ∈ es := List.mem_of_find?_eq_some hq
  have hqk : q.1 = k := by
    have := List.find?_some hq
    simpa using this
  rw [hall q hqes, hqk]

/-- The step of the Windows installer loop on `deltaJSON`. -/
theorem winFold_keys_mono (args : BuildArgs) (rs : List PreparedRelease)
    (es : List (String × ManifestEntry)) (x : String) (h : x ∈ keysOf es) :
    x ∈ keysOf (rs.foldl
      (fun es r => setEntry es r.version
        { path := some (installerFileName args r.version), sha256 := none }) es) := by
  induction rs generalizing es with
  | nil => exact h
  | cons r rest ih => exact ih _ (mem_keysOf_setEntry_of_mem h)

theorem winFold_version_mem (args : BuildArgs) (rs : List PreparedRelease)
    (es : List (String × ManifestEntry)) (r : PreparedRelease) (hr : r ∈ rs) :
    r.version ∈ keysOf (rs.foldl
      (fun es r => setEntry es r.version
        { path := some (installerFileName args r.version), sha256 := none }) es) := by
  induction rs generalizing es with
  | nil => cases hr
  | cons r' rest ih =>
    rcases List.mem_cons.mp hr with h | h
    · subst h
      exact winFold_keys_mono args rest _ _ (self_mem_keysOf_setEntry es r.version _)
    · exact ih _ h

theorem winFold_keys_elim (args : BuildArgs) (rs : List PreparedRelease)
    (es : List (String × ManifestEntry)) (x : String)
    (h : x ∈ keysOf (rs.foldl
      (fun es r => setEntry es r.version
        { path := some (installerFileName args r.version), sha256 := none }) es)) :
    x ∈ keysOf es ∨ ∃ r ∈ rs, r.version = x := by
  induction rs generalizing es with
  | nil => exact Or.inl h
  | cons r rest ih =>
    rcases ih _ h with h' | ⟨r', hr', hv⟩
    · rcases mem_keysOf_setEntry_elim h' with h'' | h''
      · exact Or.inl h''
      · exact Or.inr ⟨r, List.mem_cons_self r rest, h''.symm⟩
    · exact Or.inr ⟨r', List.mem_cons_of_mem _ hr', hv⟩

theorem winFold_length (args : BuildArgs) (rs : List PreparedRelease)
    (es : List (String × ManifestEntry)) :
    (rs.foldl
      (fun es r => setEntry es r.version
        { path := some (installerFileName args r.version), sha256 := none }) es).length ≤
      es.length + rs.length := by
  induction rs generalizing es with
  | nil => simp
  | cons r rest ih =>
    calc (rest.foldl _ (setEntry es r.version _)).length
        ≤ (setEntry es r.version _).length + rest.length := ih _
      _ ≤ es.length + 1 + rest.length :=
          Nat.add_le_add_right (length_setEntry es r.version _) _
      _ = es.length + (r :: rest).length := by simp [List.length_cons]; omega

theorem winFold_path (args : BuildArgs) (rs : List PreparedRelease)
    (es : List (String × ManifestEntry))
    (hall : ∀ q ∈ es, q.2.path = some (installerFileName args q.1)) :
    ∀ q ∈ rs.foldl
      (fun es r => setEntry es r.version
        { path := some (installerFileName args r.version), sha256 := none }) es,
      q.2.path = some (installerFileName args q.1) := by
  induction rs generalizing es with
  | nil => exact hall
  | cons r rest ih =>
    refine ih _ ?_
    intro q hq
    rcases mem_setEntry hq with h | ⟨h, _⟩
    · subst h; rfl
    · exact hall q h

/-- Invariant of the Windows checksum loop: when it returns `ok`, the
keys and length are unchanged, every entry keeps its installer path,
and every entry's `sha256` is the recomputed hash of the installer NSIS
left in the output directory. -/
theorem checksumLoopWin_ok (args : BuildArgs) (nsisOut : String → Option String) :
    ∀ (rs : List PreparedRelease) (es es' : List (String × ManifestEntry)),
    checksumLoopWin args nsisOut rs es = .ok es' →
    (∀ r ∈ rs, r.version ∈ keysOf es) →
    (∀ q ∈ es, q.2.path = some (installerFileName args q.1)) →
    (∀ q ∈ es, q.1 ∉ rs.map PreparedRelease.version →
      ∃ h, nsisOut (pathJoin (outputDirOf args) (installerFileName args q.1)) = some h ∧
        q.2.sha256 = some h) →
    keysOf es' = keysOf es ∧
    es'.length = es.length ∧
    (∀ q ∈ es', q.2.path = some (installerFileName args q.1) ∧
      ∃ h, nsisOut (pathJoin (outputDirOf args) (installerFileName args q.1)) = some h ∧
        q.2.sha256 = some h) := by
  intro rs
  induction rs with
  | nil =>
    intro es es' hok h1 h2 h3
    simp only [checksumLoopWin] at hok
    cases hok
    exact ⟨rfl, rfl, fun q hq => ⟨h2 q hq, h3 q hq (by simp)⟩⟩
  | cons r rest ih =>
    intro es es' hok h1 h2 h3
    simp only [checksumLoopWin, computeSHA256] at hok
    cases hn : nsisOut (pathJoin (outputDirOf args) (installerFileName args r.version)) with
    | none => rw [hn] at hok; simp at hok
    | some sha =>
      rw [hn] at hok
      simp only [] at hok
      have hrk : r.version ∈ keysOf es := h1 r (List.mem_cons_self r rest)
      have hgp : (getEntry es r.version).path = some (installerFileName args r.version) :=
        getEntry_path (fun k => some (installerFileName args k)) hrk h2
      have ih' := ih (setEntry es r.version
          { getEntry es r.version with sha256 := some sha }) es' hok
        (fun r' hr' => mem_keysOf_setEntry_of_mem (h1 r' (List.mem_cons_of_mem _ hr')))
        (by
          intro q hq
          rcases mem_setEntry hq with h | ⟨h, _⟩
          · subst h; exact hgp
          · exact h2 q h)
        (by
          intro q hq hnot
          rcases mem_setEntry hq with h | ⟨h, hne⟩
          · subst h
            exact ⟨sha, hn, rfl⟩
          · refine h3 q h ?_
            simp only [List.map_cons, List.mem_cons]
            rintro (h' | h')
            · exact hne h'
            · exact hnot h')
      refine ⟨?_, ?_, ih'.2.2⟩
      · rw [ih'.1, keysOf_setEntry_of_mem _ hrk]
      · rw [ih'.2.1]
        have : (setEntry es r.version { getEntry es r.version with sha256 := some sha }).length =
            (keysOf (setEntry es r.version { getEntry es r.version with sha256 := some sha })).length :=
          (List.length_map _ _).symm
        rw [this, keysOf_setEntry_of_mem _ hrk]
        exact List.length_map _ _

/-- Looking an installer file name up in the Windows output-directory
contents returns the hash NSIS left at that path, provided some
processed release carries that version and the file exists. -/
theorem lookup_outFilesWin (args : BuildArgs) (env : BuildEnv) :
    ∀ (prs : List PreparedRelease) (v : String) (h : String),
    (∃ r ∈ prs, r.version = v) →
    env.nsisOutput (pathJoin (outputDirOf args) (installerFileName args v)) = some h →
    (outFilesWin args env prs).lookup (installerFileName args v) = some h := by
  intro prs
  induction prs with
  | nil =>
    rintro v h ⟨r, hr, _⟩ _
    cases hr
  | cons r' rest ih =>
    rintro v h ⟨r, hr, hrv⟩ hsha
    simp only [outFilesWin, List.filterMap_cons]
    cases hn : env.nsisOutput
        (pathJoin (outputDirOf args) (installerFileName args r'.version)) with
    | some h' =>
      simp only [Option.map_some']
      by_cases heq : installerFileName args v = installerFileName args r'.version
      · have hph : h' = h := by
          rw [heq] at hsha
          rw [hsha] at hn
          exact (Option.some.inj hn).symm
        simp [List.lookup, heq, hph]
      · have hbeq : (installerFileName args v == installerFileName args r'.version) = false := by
          simp [heq]
        simp only [List.lookup, hbeq]
        rcases List.mem_cons.mp hr with h'' | h''
        · subst h''
          have : installerFileName args v = installerFileName args r.version := by
            rw [← hrv]
          exact absurd this heq
        · exact ih v h ⟨r, h'', hrv⟩ hsha
    | none =>
      simp only [Option.map_none']
      rcases List.mem_cons.mp hr with h'' | h''
      · subst h''
        rw [hrv] at hn
        rw [hsha] at hn
        cases hn
      · simpa [outFilesWin] using ih v h ⟨r, h'', hrv⟩ hsha

/-- Invariant of the macOS move loop: on success it inserts an entry
with the delta file name as `path` for every processed release, grows
the object by at most one key per release, and emits only `moveFile`
effects. -/
theorem macMoveLoop_ok (args : BuildArgs) (hdiffzOut : String → Option String) :
    ∀ (rs : List PreparedRelease) (moved : List String)
      (es : List (String × ManifestEntry)) (effs : List BuildEffect)
      (outs : List (String × String)) (es₁ : List (String × ManifestEntry)),
    macMoveLoop args hdiffzOut rs moved es = (effs, outs, .ok es₁) →
    (∀ x ∈ keysOf es, x ∈ keysOf es₁) ∧
    (∀ r ∈ rs, r.version ∈ keysOf es₁) ∧
    (∀ x ∈ keysOf es₁, x ∈ keysOf es ∨ ∃ r ∈ rs, r.version = x) ∧
    es₁.length ≤ es.length + rs.length ∧
    ((∀ q ∈ es, q.2.path = some (deltaFileNameOf args q.1)) →
      ∀ q ∈ es₁, q.2.path = some (deltaFileNameOf args q.1)) ∧
    (∀ e ∈ effs, ∃ s d, e = BuildEffect.moveFile s d) := by
  intro rs
  induction rs with
  | nil =>
    intro moved es effs outs es₁ hok
    simp only [macMoveLoop, Prod.mk.injEq] at hok
    obtain ⟨hE, hO, hR⟩ := hok
    cases hR
    subst hE hO
    exact ⟨fun x hx => hx, by simp, fun x hx => Or.inl hx, by simp,
      fun hp => hp, by simp⟩
  | cons r rest ih =>
    intro moved es effs outs es₁ hok
    simp only [macMoveLoop] at hok
    by_cases hmem : pathJoin (deltaDirOf args) (deltaFileNameOf args r.version) ∈ moved
    · rw [if_pos hmem] at hok
      simp [Prod.mk.injEq] at hok
    · rw [if_neg hmem] at hok
      cases hho : hdiffzOut (pathJoin (deltaDirOf args) (deltaFileNameOf args r.version)) with
      | none =>
        rw [hho] at hok
        simp [Prod.mk.injEq] at hok
      | some hh =>
        rw [hho] at hok
        rcases hrec : macMoveLoop args hdiffzOut rest
            (pathJoin (deltaDirOf args) (deltaFileNameOf args r.version) :: moved)
            (setEntry es r.version
              { path := some (deltaFileNameOf args r.version), sha256 := none })
          with ⟨effs', outs', res'⟩
        rw [hrec] at hok
        simp only [Prod.mk.injEq] at hok
        obtain ⟨hE, hO, hR⟩ := hok
        subst hR
        obtain ⟨hmono, h1, h2, h3, h4, h5⟩ := ih _ _ _ _ _ hrec
        refine ⟨?_, ?_, ?_, ?_, ?_, ?_⟩
        · intro x hx
          exact hmono x (mem_keysOf_setEntry_of_mem hx)
        · intro r' hr'
          rcases List.mem_cons.mp hr' with h | h
          · subst h
            exact hmono _ (self_mem_keysOf_setEntry es r'.version _)
          · exact h1 r' h
        · intro x hx
          rcases h2 x hx with h | ⟨r', hr', hv⟩
          · rcases mem_keysOf_setEntry_elim h with h' | h'
            · exact Or.inl h'
            · exact Or.inr ⟨r, List.mem_cons_self r rest, h'.symm⟩
          · exact Or.inr ⟨r', List.mem_cons_of_mem _ hr', hv⟩
        · calc es₁.length
              ≤ (setEntry es r.version
                  { path := some (deltaFileNameOf args r.version),
                    sha256 := none }).length + rest.length := h3
            _ ≤ es.length + 1 + rest.length :=
                Nat.add_le_add_right (length_setEntry es r.version _) _
            _ = es.length + (r :: rest).length := by simp [List.length_cons]; omega
        · intro hp
          refine h4 ?_
          intro q hq
          rcases mem_setEntry hq with h | ⟨h, _⟩
          · subst h; rfl
          · exact hp q h
        · subst hE
          intro e he
          rcases List.mem_cons.mp he with h | h
          · exact ⟨_, _, h⟩
          · exact h5 e h

/-- Invariant of the macOS checksum loop, mirroring
`checksumLoopWin_ok` with the moved output-directory contents as the
source of hashes. -/
theorem checksumLoopMac_ok (args : BuildArgs) (outs : List (String × String)) :
    ∀ (rs : List PreparedRelease) (es es' : List (String × ManifestEntry)),
    checksumLoopMac args outs rs es = .ok es' →
    (∀ r ∈ rs, r.version ∈ keysOf es) →
    (∀ q ∈ es, q.2.path = some (deltaFileNameOf args q.1)) →
    (∀ q ∈ es, q.1 ∉ rs.map PreparedRelease.version →
      ∃ h, outs.lookup (deltaFileNameOf args q.1) = some h ∧ q.2.sha256 = some h) →
    keysOf es' = keysOf es ∧
    es'.length = es.length ∧
    (∀ q ∈ es', q.2.path = some (deltaFileNameOf args q.1) ∧
      ∃ h, outs.lookup (deltaFileNameOf args q.1) = some h ∧ q.2.sha256 = some h) := by
  intro rs
  induction rs with
  | nil =>
    intro es es' hok h1 h2 h3
    simp only [checksumLoopMac] at hok
    cases hok
    exact ⟨rfl, rfl, fun q hq => ⟨h2 q hq, h3 q hq (by simp)⟩⟩
  | cons r rest ih =>
    intro es es' hok h1 h2 h3
    simp only [checksumLoopMac] at hok
    cases hn : outs.lookup (deltaFileNameOf args r.version) with
    | none => rw [hn] at hok; simp at hok
    | some sha =>
      rw [hn] at hok
      have hrk : r.version ∈ keysOf es := h1 r (List.mem_cons_self r rest)
      have hgp : (getEntry es r.version).path = some (deltaFileNameOf args r.version) :=
        getEntry_path (fun k => some (deltaFileNameOf args k)) hrk h2
      have ih' := ih (setEntry es r.version
          { getEntry es r.version with sha256 := some sha }) es' hok
        (fun r' hr' => mem_keysOf_setEntry_of_mem (h1 r' (List.mem_cons_of_mem _ hr')))
        (by
          intro q hq
          rcases mem_setEntry hq with h | ⟨h, _⟩
          · subst h; exact hgp
          · exact h2 q h)
        (by
          intro q hq hnot
          rcases mem_setEntry hq with h | ⟨h, hne⟩
          · subst h
            exact ⟨sha, hn, rfl⟩
          · refine h3 q h ?_
            simp only [List.map_cons, List.mem_cons]
            rintro (h' | h')
            · exact hne h'
            · exact hnot h')
      refine ⟨?_, ?_, ih'.2.2⟩
      · rw [ih'.1, keysOf_setEntry_of_mem _ hrk]
      · rw [ih'.2.1]
        have : (setEntry es r.version { getEntry es r.version with sha256 := some sha }).length =
            (keysOf (setEntry es r.version { getEntry es r.version with sha256 := some sha })).length :=
          (List.length_map _ _).symm
        rw [this, keysOf_setEntry_of_mem _ hrk]
        exact List.length_map _ _

/-- Characterization of a successful Windows run of `createAllDeltas`. -/
theorem createAllDeltas_win_ok (args : BuildArgs) (env : BuildEnv)
    (entries2 : List (String × ManifestEntry))
    (hp : args.platform = "win")
    (hne : (releasesOf env).isEmpty = false)
    (hck : checksumLoopWin args env.nsisOutput (preparedOf env)
      (winInitEntries args (preparedOf env)) = .ok entries2) :
    createAllDeltas args env =
      { effects := baseEffectsOf args env (preparedOf env) ++
          nsisEffectsOf args (preparedOf env) ++
          [BuildEffect.writeManifest (manifestPathOf args)
            { productName := args.productName, latestVersion := args.latestVersion,
              entries := entries2 }],
        result := .ok (some
          (((outFilesWin args env (preparedOf env)).map
              fun p => pathJoin (outputDirOf args) p.1) ++ [manifestPathOf args])),
        outFiles := outFilesWin args env (preparedOf env),
        manifest := some
          { productName := args.productName, latestVersion := args.latestVersion,
            entries := entries2 } } := by
  simp [createAllDeltas, hp, hne, hck]

/-- Characterization of a Windows run whose checksum loop throws. -/
theorem createAllDeltas_win_err (args : BuildArgs) (env : BuildEnv) (e : String)
    (hp : args.platform = "win")
    (hne : (releasesOf env).isEmpty = false)
    (hck : checksumLoopWin args env.nsisOutput (preparedOf env)
      (winInitEntries args (preparedOf env)) = .error e) :
    createAllDeltas args env =
      { effects := baseEffectsOf args env (preparedOf env) ++
          nsisEffectsOf args (preparedOf env),
        result := .error e,
        outFiles := outFilesWin args env (preparedOf env),
        manifest := none } := by
  simp [createAllDeltas, hp, hne, hck]

/-- Characterization of a successful macOS run of `createAllDeltas`. -/
theorem createAllDeltas_mac_ok (args : BuildArgs) (env : BuildEnv)
    (mvEffects : List BuildEffect) (outs : List (String × String))
    (es₁ entries2 : List (String × ManifestEntry))
    (hp : ¬args.platform = "win")
    (hne : (releasesOf env).isEmpty = false)
    (hmv : macMoveLoop args env.hdiffzOutput (preparedOf env) [] [] =
      (mvEffects, outs, .ok es₁))
    (hck : checksumLoopMac args outs (preparedOf env) es₁ = .ok entries2) :
    createAllDeltas args env =
      { effects := baseEffectsOf args env (preparedOf env) ++ mvEffects ++
          [BuildEffect.writeManifest (manifestPathOf args)
            { productName := args.productName, latestVersion := args.latestVersion,
              entries := entries2 }],
        result := .ok (some
          ((outs.map fun p => pathJoin (outputDirOf args) p.1) ++ [manifestPathOf args])),
        outFiles := outs,
        manifest := some
          { productName := args.productName, latestVersion := args.latestVersion,
            entries := entries2 } } := by
  simp [createAllDeltas, hp, hne, hmv, hck]

/-- Characterization of a macOS run whose move loop throws. -/
theorem createAllDeltas_mac_moveErr (args : BuildArgs) (env : BuildEnv)
    (mvEffects : List BuildEffect) (outs : List (String × String)) (e : String)
    (hp : ¬args.platform = "win")
    (hne : (releasesOf env).isEmpty = false)
    (hmv : macMoveLoop args env.hdiffzOutput (preparedOf env) [] [] =
      (mvEffects, outs, .error e)) :
    createAllDeltas args env =
      { effects := baseEffectsOf args env (preparedOf env) ++ mvEffects,
        result := .error e, outFiles := outs, manifest := none } := by
  simp [createAllDeltas, hp, hne, hmv]

/-- Characterization of a macOS run whose checksum loop throws. -/
theorem createAllDeltas_mac_ckErr (args : BuildArgs) (env : BuildEnv)
    (mvEffects : List BuildEffect) (outs : List (String × String))
    (es₁ : List (String × ManifestEntry)) (e : String)
    (hp : ¬args.platform = "win")
    (hne : (releasesOf env).isEmpty = false)
    (hmv : macMoveLoop args env.hdiffzOutput (preparedOf env) [] [] =
      (mvEffects, outs, .ok es₁))
    (hck : checksumLoopMac args outs (preparedOf env) es₁ = .error e) :
    createAllDeltas args env =
      { effects := baseEffectsOf args env (preparedOf env) ++ mvEffects,
        result := .error e, outFiles := outs, manifest := none } := by
  simp [createAllDeltas, hp, hne, hmv, hck]

/-- C1 counterexample: with a single prior release whose `createDelta`
invocation fails (`spawnSync` throws, so `createDelta` returns `null`),
the written manifest still carries the key `1.0.0` — the failed pair is
not omitted, contradicting the claim that the manifest keys are exactly
the versions whose diff-tool invocation succeeded (which here would be
no key at all). -/
theorem createAllDeltas_keeps_version_despite_failed_delta :
    createDelta (envDeltaFail.hdiffzThrows "/cache/deltas/App-1.0.0-to-2.0.0.delta") =
      none ∧
    deltaEffectsOf sampleArgs envDeltaFail (preparedOf envDeltaFail) =
      [BuildEffect.createDeltaCall "/cache/data/1.0.0" "/cache/data/2.0.0"
        "/cache/deltas/App-1.0.0-to-2.0.0.delta" none] ∧
    ((createAllDeltas sampleArgs envDeltaFail).manifest.map fun m => keysOf m.entries) =
      some ["1.0.0"] ∧
    some ["1.0.0"] ≠ some ([] : List String) := by
  refine ⟨rfl, by decide, by decide, by simp⟩

/-- C1 amended: whenever `createAllDeltas` writes a manifest, its keys
are exactly the versions of the truncated, prepared previous-release
list — independent of any `createDelta` failures, which are recorded
and ignored — and the delta loop still runs once per pair. -/
theorem createAllDeltas_manifest_keys_are_truncated_versions
    (args : BuildArgs) (env : BuildEnv) (m : Manifest)
    (hm : (createAllDeltas args env).manifest = some m) :
    (∀ v, v ∈ keysOf m.entries ↔ ∃ r ∈ preparedOf env, r.version = v) ∧
    (deltaEffectsOf args env (preparedOf env)).length = (preparedOf env).length := by
  refine ⟨?_, by simp [deltaEffectsOf]⟩
  intro v
  by_cases hne : (releasesOf env).isEmpty
  · have hrun : createAllDeltas args env =
        { effects := [], result := .ok none, outFiles := [], manifest := none } := by
      simp [createAllDeltas, hne]
    rw [hrun] at hm
    cases hm
  · have hne' : (releasesOf env).isEmpty = false := by simpa using hne
    by_cases hp : args.platform = "win"
    · cases hck : checksumLoopWin args env.nsisOutput (preparedOf env)
          (winInitEntries args (preparedOf env)) with
      | error e =>
        rw [createAllDeltas_win_err args env e hp hne' hck] at hm
        cases hm
      | ok entries2 =>
        rw [createAllDeltas_win_ok args env entries2 hp hne' hck] at hm
        have hm' : m =
            { productName := args.productName, latestVersion := args.latestVersion,
              entries := entries2 } :=
          (Option.some.inj hm).symm
        subst hm'
        have hinv := checksumLoopWin_ok args env.nsisOutput (preparedOf env)
          (winInitEntries args (preparedOf env)) entries2 hck
          (fun r hr => winFold_version_mem args (preparedOf env) [] r hr)
          (winFold_path args (preparedOf env) [] (by simp))
          (by
            intro q hq hnot
            exfalso
            apply hnot
            have hkey : q.1 ∈ keysOf (winInitEntries args (preparedOf env)) :=
              List.mem_map.mpr ⟨q, hq, rfl⟩
            rcases winFold_keys_elim args (preparedOf env) [] q.1 hkey with h | ⟨r, hr, hv⟩
            · simp [keysOf] at h
            · exact List.mem_map.mpr ⟨r, hr, hv⟩)
        constructor
        · intro hv
          rw [show keysOf entries2 = keysOf (winInitEntries args (preparedOf env))
              from hinv.1] at hv
          rcases winFold_keys_elim args (preparedOf env) [] v hv with h | h
          · simp [keysOf] at h
          · exact h
        · rintro ⟨r, hr, hv⟩
          rw [show keysOf entries2 = keysOf (winInitEntries args (preparedOf env))
              from hinv.1]
          rw [← hv]
          exact winFold_version_mem args (preparedOf env) [] r hr
    · rcases hmv : macMoveLoop args env.hdiffzOutput (preparedOf env) [] []
        with ⟨effs, outs, res⟩
      cases res with
      | error e =>
        rw [createAllDeltas_mac_moveErr args env effs outs e hp hne' hmv] at hm
        cases hm
      | ok es₁ =>
        cases hck : checksumLoopMac args outs (preparedOf env) es₁ with
        | error e =>
          rw [createAllDeltas_mac_ckErr args env effs outs es₁ e hp hne' hmv hck] at hm
          cases hm
        | ok entries2 =>
          rw [createAllDeltas_mac_ok args env effs outs es₁ entries2 hp hne' hmv hck] at hm
          have hm' : m =
              { productName := args.productName, latestVersion := args.latestVersion,
                entries := entries2 } :=
            (Option.some.inj hm).symm
          subst hm'
          obtain ⟨hmono, h1mv, h2mv, h3mv, h4mv, h5mv⟩ :=
            macMoveLoop_ok args env.hdiffzOutput (preparedOf env) [] [] effs outs es₁ hmv
          have hinv := checksumLoopMac_ok args outs (preparedOf env) es₁ entries2 hck
            h1mv
            (h4mv (by simp))
            (by
              intro q hq hnot
              exfalso
              apply hnot
              have hkey : q.1 ∈ keysOf es₁ := List.mem_map.mpr ⟨q, hq, rfl⟩
              rcases h2mv q.1 hkey with h | ⟨r, hr, hv⟩
              · simp [keysOf] at h
              · exact List.mem_map.mpr ⟨r, hr, hv⟩)
          constructor
          · intro hv
            rw [show keysOf entries2 = keysOf es₁ from hinv.1] at hv
            rcases h2mv v hv with h | h
            · simp [keysOf] at h
            · exact h
          · rintro ⟨r, hr, hv⟩
            rw [show keysOf entries2 = keysOf es₁ from hinv.1, ← hv]
            exact h1mv r hr

theorem createAllDeltas_manifest_keys_are_truncated_versions_witness :
    (createAllDeltas sampleArgs envDeltaFail).manifest =
      some
        { productName := "App", latestVersion := "2.0.0",
          entries := [("1.0.0",
            { path := some "App-1.0.0-to-2.0.0-delta.exe",
              sha256 := some "deadbeef" })] } ∧
    ((∀ v, v ∈ keysOf [("1.0.0",
          ({ path := some "App-1.0.0-to-2.0.0-delta.exe",
             sha256 := some "deadbeef" } : ManifestEntry))] ↔
        ∃ r ∈ preparedOf envDeltaFail, r.version = v) ∧
      (deltaEffectsOf sampleArgs envDeltaFail (preparedOf envDeltaFail)).length =
        (preparedOf envDeltaFail).length) := by
  constructor
  · decide
  · exact createAllDeltas_manifest_keys_are_truncated_versions sampleArgs envDeltaFail
      { productName := "App", latestVersion := "2.0.0",
        entries := [("1.0.0",
          { path := some "App-1.0.0-to-2.0.0-delta.exe", sha256 := some "deadbeef" })] }
      (by decide)

/-- C4: when the release index returned `N` releases and a manifest was
produced, the manifest has at most `min N 10` version entries (the
pipeline truncates to the first 10), and every entry's `path` names a
file present in the output directory whose recomputed SHA-256 equals
the entry's `sha256`. -/
theorem createAllDeltas_manifest_bounded_and_consistent
    (args : BuildArgs) (env : BuildEnv) (rs : List Release) (m : Manifest)
    (henv : env.previousReleasesResult = Except.ok rs)
    (hm : (createAllDeltas args env).manifest = some m) :
    m.entries.length ≤ min rs.length 10 ∧
    ∀ q ∈ m.entries, ∃ name h, q.2.path = some name ∧
      ((createAllDeltas args env).outFiles).lookup name = some h ∧
      q.2.sha256 = some h := by
  have hrel : releasesOf env = rs := by simp [releasesOf, henv]
  have hlen : (preparedOf env).length = min rs.length 10 := by
    simp [preparedOf, preparePreviousReleases, hrel, List.length_take, Nat.min_comm]
  by_cases hne : (releasesOf env).isEmpty
  · have hrun : createAllDeltas args env =
        { effects := [], result := .ok none, outFiles := [], manifest := none } := by
      simp [createAllDeltas, hne]
    rw [hrun] at hm
    cases hm
  · have hne' : (releasesOf env).isEmpty = false := by simpa using hne
    by_cases hp : args.platform = "win"
    · cases hck : checksumLoopWin args env.nsisOutput (preparedOf env)
          (winInitEntries args (preparedOf env)) with
      | error e =>
        rw [createAllDeltas_win_err args env e hp hne' hck] at hm
        cases hm
      | ok entries2 =>
        have hrun := createAllDeltas_win_ok args env entries2 hp hne' hck
        rw [hrun] at hm
        have hm' : m =
            { productName := args.productName, latestVersion := args.latestVersion,
              entries := entries2 } :=
          (Option.some.inj hm).symm
        subst hm'
        have hinv := checksumLoopWin_ok args env.nsisOutput (preparedOf env)
          (winInitEntries args (preparedOf env)) entries2 hck
          (fun r hr => winFold_version_mem args (preparedOf env) [] r hr)
          (winFold_path args (preparedOf env) [] (by simp))
          (by
            intro q hq hnot
            exfalso
            apply hnot
            have hkey : q.1 ∈ keysOf (winInitEntries args (preparedOf env)) :=
              List.mem_map.mpr ⟨q, hq, rfl⟩
            rcases winFold_keys_elim args (preparedOf env) [] q.1 hkey with h | ⟨r, hr, hv⟩
            · simp [keysOf] at h
            · exact List.mem_map.mpr ⟨r, hr, hv⟩)
        constructor
        · calc entries2.length = (winInitEntries args (preparedOf env)).length :=
              hinv.2.1
            _ ≤ ([] : List (String × ManifestEntry)).length + (preparedOf env).length :=
              winFold_length args (preparedOf env) []
            _ = min rs.length 10 := by simp [hlen]
        · intro q hq
          obtain ⟨hpath, h, hsha, hq2⟩ := hinv.2.2 q hq
          refine ⟨installerFileName args q.1, h, hpath, ?_, hq2⟩
          rw [hrun]
          have hwit : ∃ r ∈ preparedOf env, r.version = q.1 := by
            have hkey : q.1 ∈ keysOf entries2 := List.mem_map.mpr ⟨q, hq, rfl⟩
            rw [show keysOf entries2 = keysOf (winInitEntries args (preparedOf env))
                from hinv.1] at hkey
            rcases winFold_keys_elim args (preparedOf env) [] q.1 hkey with h' | h'
            · simp [keysOf] at h'
            · exact h'
          exact lookup_outFilesWin args env (preparedOf env) q.1 h hwit hsha
    · rcases hmv : macMoveLoop args env.hdiffzOutput (preparedOf env) [] []
        with ⟨effs, outs, res⟩
      cases res with
      | error e =>
        rw [createAllDeltas_mac_moveErr args env effs outs e hp hne' hmv] at hm
        cases hm
      | ok es₁ =>
        cases hck : checksumLoopMac args outs (preparedOf env) es₁ with
        | error e =>
          rw [createAllDeltas_mac_ckErr args env effs outs es₁ e hp hne' hmv hck] at hm
          cases hm
        | ok entries2 =>
          have hrun := createAllDeltas_mac_ok args env effs outs es₁ entries2 hp hne' hmv hck
          rw [hrun] at hm
          have hm' : m =
              { productName := args.productName, latestVersion := args.latestVersion,
                entries := entries2 } :=
            (Option.some.inj hm).symm
          subst hm'
          obtain ⟨hmono, h1mv, h2mv, h3mv, h4mv, h5mv⟩ :=
            macMoveLoop_ok args env.hdiffzOutput (preparedOf env) [] [] effs outs es₁ hmv
          have hinv := checksumLoopMac_ok args outs (preparedOf env) es₁ entries2 hck
            h1mv
            (h4mv (by simp))
            (by
              intro q hq hnot
              exfalso
              apply hnot
              have hkey : q.1 ∈ keysOf es₁ := List.mem_map.mpr ⟨q, hq, rfl⟩
              rcases h2mv q.1 hkey with h | ⟨r, hr, hv⟩
              · simp [keysOf] at h
              · exact List.mem_map.mpr ⟨r, hr, hv⟩)
          constructor
          · calc entries2.length = es₁.length := hinv.2.1
              _ ≤ ([] : List (String × ManifestEntry)).length + (preparedOf env).length :=
                h3mv
              _ = min rs.length 10 := by simp [hlen]
          · intro q hq
            obtain ⟨hpath, h, hsha, hq2⟩ := hinv.2.2 q hq
            refine ⟨deltaFileNameOf args q.1, h, hpath, ?_, hq2⟩
            rw [hrun]
            exact hsha

theorem createAllDeltas_manifest_bounded_and_consistent_witness :
    envWarm.previousReleasesResult = Except.ok [sampleRelease] ∧
    (createAllDeltas sampleArgs envWarm).manifest =
      some
        { productName := "App", latestVersion := "2.0.0",
          entries := [("1.0.0",
            { path := some "App-1.0.0-to-2.0.0-delta.exe",
              sha256 := some "deadbeef" })] } ∧
    ((({ productName := "App", latestVersion := "2.0.0",
         entries := [("1.0.0",
           { path := some "App-1.0.0-to-2.0.0-delta.exe",
             sha256 := some "deadbeef" })] } : Manifest)).entries.length ≤
        min ([sampleRelease].length) 10 ∧
      ∀ q ∈ (({ productName := "App", latestVersion := "2.0.0",
                entries := [("1.0.0",
                  { path := some "App-1.0.0-to-2.0.0-delta.exe",
                    sha256 := some "deadbeef" })] } : Manifest)).entries,
        ∃ name h, q.2.path = some name ∧
          ((createAllDeltas sampleArgs envWarm).outFiles).lookup name = some h ∧
          q.2.sha256 = some h) := by
  refine ⟨rfl, by decide, ?_⟩
  exact createAllDeltas_manifest_bounded_and_consistent sampleArgs envWarm
    [sampleRelease]
    { productName := "App", latestVersion := "2.0.0",
      entries := [("1.0.0",
        { path := some "App-1.0.0-to-2.0.0-delta.exe", sha256 := some "deadbeef" })] }
    rfl (by decide)

theorem not_download_extract_deltaEffects (args : BuildArgs) (env : BuildEnv)
    (prs : List PreparedRelease) :
    ∀ e ∈ deltaEffectsOf args env prs, isDownload e = false ∧ isExtract e = false := by
  intro e he
  simp only [deltaEffectsOf, List.mem_map] at he
  obtain ⟨r, hr, he⟩ := he
  subst he
  exact ⟨rfl, rfl⟩

theorem not_download_extract_nsisEffects (args : BuildArgs)
    (prs : List PreparedRelease) :
    ∀ e ∈ nsisEffectsOf args prs, isDownload e = false ∧ isExtract e = false := by
  intro e he
  simp only [nsisEffectsOf, List.mem_flatMap] at he
  obtain ⟨r, hr, he⟩ := he
  simp at he
  rcases he with he | he <;> subst he <;> exact ⟨rfl, rfl⟩

theorem macMoveLoop_effects_moveFile (args : BuildArgs)
    (hdiffzOut : String → Option String) :
    ∀ (rs : List PreparedRelease) (moved : List String)
      (es : List (String × ManifestEntry)),
    ∀ e ∈ (macMoveLoop args hdiffzOut rs moved es).1,
      ∃ s d, e = BuildEffect.moveFile s d := by
  intro rs
  induction rs with
  | nil =>
    intro moved es e he
    simp [macMoveLoop] at he
  | cons r rest ih =>
    intro moved es e he
    simp only [macMoveLoop] at he
    by_cases hmem : pathJoin (deltaDirOf args) (deltaFileNameOf args r.version) ∈ moved
    · rw [if_pos hmem] at he
      simp at he
    · rw [if_neg hmem] at he
      cases hho : hdiffzOut (pathJoin (deltaDirOf args) (deltaFileNameOf args r.version)) with
      | none =>
        rw [hho] at he
        simp at he
      | some hh =>
        rw [hho] at he
        simp only [List.mem_cons] at he
        rcases he with he | he
        · exact ⟨_, _, he⟩
        · exact ih _ _ e he

/-- Every effect a `createAllDeltas` run performs after the delta loop
is neither a download nor an extraction. -/
theorem createAllDeltas_effects_split (args : BuildArgs) (env : BuildEnv)
    (hne : (releasesOf env).isEmpty = false) :
    ∃ tail, (createAllDeltas args env).effects =
      baseEffectsOf args env (preparedOf env) ++ tail ∧
      ∀ e ∈ tail, isDownload e = false ∧ isExtract e = false := by
  by_cases hp : args.platform = "win"
  · cases hck : checksumLoopWin args env.nsisOutput (preparedOf env)
        (winInitEntries args (preparedOf env)) with
    | ok entries2 =>
      refine ⟨nsisEffectsOf args (preparedOf env) ++
        [BuildEffect.writeManifest (manifestPathOf args)
          { productName := args.productName, latestVersion := args.latestVersion,
            entries := entries2 }], ?_, ?_⟩
      · rw [createAllDeltas_win_ok args env entries2 hp hne hck]
        simp [List.append_assoc]
      · intro e he
        rcases List.mem_append.mp he with h | h
        · exact not_download_extract_nsisEffects args _ e h
        · simp at h
          subst h
          exact ⟨rfl, rfl⟩
    | error e' =>
      refine ⟨nsisEffectsOf args (preparedOf env), ?_, ?_⟩
      · rw [createAllDeltas_win_err args env e' hp hne hck]
      · exact not_download_extract_nsisEffects args _
  · rcases hmv : macMoveLoop args env.hdiffzOutput (preparedOf env) [] []
      with ⟨effs, outs, res⟩
    have heffs : ∀ e ∈ effs, ∃ s d, e = BuildEffect.moveFile s d := by
      intro e he
      have := macMoveLoop_effects_moveFile args env.hdiffzOutput (preparedOf env) [] []
      rw [hmv] at this
      exact this e he
    have heffs' : ∀ e ∈ effs, isDownload e = false ∧ isExtract e = false := by
      intro e he
      obtain ⟨s, d, hsd⟩ := heffs e he
      subst hsd
      exact ⟨rfl, rfl⟩
    cases res with
    | ok es₁ =>
      cases hck : checksumLoopMac args outs (preparedOf env) es₁ with
      | ok entries2 =>
        refine ⟨effs ++
          [BuildEffect.writeManifest (manifestPathOf args)
            { productName := args.productName, latestVersion := args.latestVersion,
              entries := entries2 }], ?_, ?_⟩
        · rw [createAllDeltas_mac_ok args env effs outs es₁ entries2 hp hne hmv hck]
          simp [List.append_assoc]
        · intro e he
          rcases List.mem_append.mp he with h | h
          · exact heffs' e h
          · simp at h
            subst h
            exact ⟨rfl, rfl⟩
      | error e' =>
        refine ⟨effs, ?_, heffs'⟩
        rw [createAllDeltas_mac_ckErr args env effs outs es₁ e' hp hne hmv hck]
    | error e' =>
      refine ⟨effs, ?_, heffs'⟩
      rw [createAllDeltas_mac_moveErr args env effs outs e' hp hne hmv]

/-- The written manifest depends only on the release list,
`semver.clean`, and the diff/NSIS tool outputs — not on the cache-state
(`fs.existsSync`) observations or on whether `hdiffz` threw. -/
theorem createAllDeltas_manifest_congr (args : BuildArgs) (env1 env2 : BuildEnv)
    (h1 : env1.previousReleasesResult = env2.previousReleasesResult)
    (h2 : env1.semverClean = env2.semverClean)
    (h5 : env1.hdiffzOutput = env2.hdiffzOutput)
    (h6 : env1.nsisOutput = env2.nsisOutput) :
    (createAllDeltas args env1).manifest = (createAllDeltas args env2).manifest := by
  have hr : releasesOf env1 = releasesOf env2 := by
    unfold releasesOf
    rw [h1]
  have hpp : preparedOf env1 = preparedOf env2 := by
    unfold preparedOf
    rw [hr, h2]
  by_cases hne : (releasesOf env2).isEmpty
  · have hne1 : (releasesOf env1).isEmpty = true := by rw [hr]; exact hne
    simp [createAllDeltas, hne, hne1]
  · have hne2 : (releasesOf env2).isEmpty = false := by simpa using hne
    have hne1 : (releasesOf env1).isEmpty = false := by rw [hr]; exact hne2
    by_cases hp : args.platform = "win"
    · cases hck : checksumLoopWin args env2.nsisOutput (preparedOf env2)
          (winInitEntries args (preparedOf env2)) with
      | ok entries2 =>
        have hck1 : checksumLoopWin args env1.nsisOutput (preparedOf env1)
            (winInitEntries args (preparedOf env1)) = .ok entries2 := by
          rw [h6, hpp]; exact hck
        rw [createAllDeltas_win_ok args env1 entries2 hp hne1 hck1,
          createAllDeltas_win_ok args env2 entries2 hp hne2 hck]
      | error e =>
        have hck1 : checksumLoopWin args env1.nsisOutput (preparedOf env1)
            (winInitEntries args (preparedOf env1)) = .error e := by
          rw [h6, hpp]; exact hck
        rw [createAllDeltas_win_err args env1 e hp hne1 hck1,
          createAllDeltas_win_err args env2 e hp hne2 hck]
    · rcases hmv : macMoveLoop args env2.hdiffzOutput (preparedOf env2) [] []
        with ⟨effs, outs, res⟩
      have hmv1 : macMoveLoop args env1.hdiffzOutput (preparedOf env1) [] [] =
          (effs, outs, res) := by
        rw [h5, hpp]; exact hmv
      cases res with
      | ok es₁ =>
        cases hck : checksumLoopMac args outs (preparedOf env2) es₁ with
        | ok entries2 =>
          have hck1 : checksumLoopMac args outs (preparedOf env1) es₁ = .ok entries2 := by
            rw [hpp]; exact hck
          rw [createAllDeltas_mac_ok args env1 effs outs es₁ entries2 hp hne1 hmv1 hck1,
            createAllDeltas_mac_ok args env2 effs outs es₁ entries2 hp hne2 hmv hck]
        | error e =>
          have hck1 : checksumLoopMac args outs (preparedOf env1) es₁ = .error e := by
            rw [hpp]; exact hck
          rw [createAllDeltas_mac_ckErr args env1 effs outs es₁ e hp hne1 hmv1 hck1,
            createAllDeltas_mac_ckErr args env2 effs outs es₁ e hp hne2 hmv hck]
      | error e =>
        rw [createAllDeltas_mac_moveErr args env1 effs outs e hp hne1 hmv1,
          createAllDeltas_mac_moveErr args env2 effs outs e hp hne2 hmv]

/-- C6 counterexample: on a fully warmed cache (the installer file and
the extracted executable both present, asserted by the first two
conjuncts) the second run performs zero downloads — but still performs
one extraction: line 125 extracts the latest release unconditionally.
The claim's "zero additional extractions" is false. -/
theorem createAllDeltas_warm_cache_still_extracts_latest :
    (∀ r ∈ preparedOf envWarm,
      envWarm.exists0 (pathJoin (dataDirOf sampleArgs) r.fileName) = true) ∧
    (∀ r ∈ preparedOf envWarm,
      envWarm.exists0 (exePathOf sampleArgs r.version) = true) ∧
    (createAllDeltas sampleArgs envWarm).effects.filter isDownload = [] ∧
    (createAllDeltas sampleArgs envWarm).effects.filter isExtract =
      [BuildEffect.extract "/latest/App-2.0.0.exe" "/cache/data/2.0.0"] ∧
    (createAllDeltas sampleArgs envWarm).effects.countP isExtract ≠ 0 := by
  refine ⟨fun _ _ => rfl, fun _ _ => rfl, by decide, by decide, by decide⟩

/-- C6 amended: a run against a fully populated cache performs zero
downloads and zero per-prior-version extractions, but it does re-extract
the latest release's own artifact (one extraction per run); and the
manifest it writes is identical to the one a cold-cache run writes,
given the same release list and tool outputs (the manifest does not
depend on the cache-existence observations). -/
theorem createAllDeltas_warm_cache_no_downloads_one_extract
    (args : BuildArgs) (env : BuildEnv)
    (hw1 : ∀ r ∈ preparedOf env,
      env.exists0 (pathJoin (dataDirOf args) r.fileName) = true)
    (hw2 : ∀ r ∈ preparedOf env,
      env.exists0 (exePathOf args r.version) = true) :
    (createAllDeltas args env).effects.filter isDownload = [] ∧
    (createAllDeltas args env).effects.filter isExtract =
      (if (releasesOf env).isEmpty then []
       else [BuildEffect.extract args.latestReleaseFilePath (latestReleaseDirOf args)]) ∧
    (∀ f, (createAllDeltas args { env with exists0 := f }).manifest =
      (createAllDeltas args env).manifest) := by
  have hindep : ∀ f, (createAllDeltas args { env with exists0 := f }).manifest =
      (createAllDeltas args env).manifest := fun f =>
    createAllDeltas_manifest_congr args { env with exists0 := f } env rfl rfl rfl rfl
  by_cases hne : (releasesOf env).isEmpty
  · have hrun : createAllDeltas args env =
        { effects := [], result := .ok none, outFiles := [], manifest := none } := by
      simp [createAllDeltas, hne]
    refine ⟨?_, ?_, hindep⟩
    · rw [hrun]
      rfl
    · rw [hrun]
      simp [hne]
  · have hne' : (releasesOf env).isEmpty = false := by simpa using hne
    obtain ⟨tail, htail, htailP⟩ := createAllDeltas_effects_split args env hne'
    have hdl : dlEffectsOf args env (preparedOf env) = [] := by
      simp only [dlEffectsOf]
      rw [List.filterMap_eq_nil_iff]
      intro r hr
      simp [hw1 r hr]
    have hex : exEffectsOf args env (preparedOf env) = [] := by
      simp only [exEffectsOf]
      rw [List.filterMap_eq_nil_iff]
      intro r hr
      simp [hw2 r hr]
    have hbase : baseEffectsOf args env (preparedOf env) =
        [BuildEffect.extract args.latestReleaseFilePath (latestReleaseDirOf args)] ++
          deltaEffectsOf args env (preparedOf env) := by
      simp [baseEffectsOf, hdl, hex]
    have hdelta : (deltaEffectsOf args env (preparedOf env)).filter isDownload = [] ∧
        (deltaEffectsOf args env (preparedOf env)).filter isExtract = [] := by
      constructor <;>
      · rw [List.filter_eq_nil_iff]
        intro e he
        have := not_download_extract_deltaEffects args env (preparedOf env) e he
        simp [this.1, this.2]
    have htailF : tail.filter isDownload = [] ∧ tail.filter isExtract = [] := by
      constructor <;>
      · rw [List.filter_eq_nil_iff]
        intro e he
        have := htailP e he
        simp [this.1, this.2]
    refine ⟨?_, ?_, hindep⟩
    · rw [htail, hbase, List.filter_append, List.filter_append, hdelta.1, htailF.1]
      rfl
    · rw [htail, hbase, List.filter_append, List.filter_append, hdelta.2, htailF.2]
      simp [hne', isExtract]

theorem createAllDeltas_warm_cache_no_downloads_one_extract_witness :
    (∀ r ∈ preparedOf envWarm,
      envWarm.exists0 (pathJoin (dataDirOf sampleArgs) r.fileName) = true) ∧
    (∀ r ∈ preparedOf envWarm,
      envWarm.exists0 (exePathOf sampleArgs r.version) = true) ∧
    ((createAllDeltas sampleArgs envWarm).effects.filter isDownload = [] ∧
      (createAllDeltas sampleArgs envWarm).effects.filter isExtract =
        (if (releasesOf envWarm).isEmpty then []
         else [BuildEffect.extract sampleArgs.latestReleaseFilePath
            (latestReleaseDirOf sampleArgs)]) ∧
      (∀ f, (createAllDeltas sampleArgs { envWarm with exists0 := f }).manifest =
        (createAllDeltas sampleArgs envWarm).manifest)) :=
  ⟨fun _ _ => rfl, fun _ _ => rfl,
    createAllDeltas_warm_cache_no_downloads_one_extract sampleArgs envWarm
      (fun _ _ => rfl) (fun _ _ => rfl)⟩
